import Mathlib

/-!
Verification of the actor driver of the `actix-async` crate.

The development shallowly embeds the per-actor execution engine:

* `drainLoop` — the wake-queue drain loop at the top of
  `ContextFuture::poll_running` (`src/context_future.rs`, lines 179-198);
* `pollRunningF` — the whole of `poll_running` (lines 172-339) together with
  `poll_close` (lines 373-400) as a fueled state machine over `Driver`;
* `wakeW` / `wakeByRefW` — the two wake paths of `ActorWaker`
  (`src/waker.rs`, lines 28-53);
* `pollReq` / `setTimeout` / `setTimeoutResponse` — the request future
  (`src/request.rs`).

Boxed handler futures are opaque to the driver; their observable behaviour is
the number of further polls they need before returning `Ready`, so a task is
embedded as that count (a `Nat`).  Every run of the driver records an event
trace, over which the temporal claims are stated.
-/

namespace ActixAsync

set_option maxRecDepth 8000

/-- `ActorState` from `actor.rs` as observed by `context_future.rs`:
`Running`, `StopGraceful`, `Stop`. -/
inductive ActorState
| running
| stopGraceful
| stop
deriving DecidableEq, Repr

/-- `ContextState` from `context_future.rs` (lines 99-103). -/
inductive ContextState
| starting
| running
| stopping
deriving DecidableEq, Repr

/-- A boxed handler future (`Task = LocalBoxFuture<'static, ()>`): the driver
only observes polls, so a task is the number of `Pending` polls it returns
before `Ready`. -/
abbrev Task := Nat

/-- Polling a task: `none` is `Poll::Ready(())`, `some t` is `Poll::Pending`
with the task's remaining behaviour `t`. -/
def pollTask : Task → Option Task
| 0 => none
| n + 1 => some n

/-- The concurrent task slab (`TaskRef`, a `Slab<Task>`): a finite map from
stable indices to tasks, as an association list. -/
abbrev Slab := List (Nat × Task)

/-- `Slab::get_mut(idx)`: total lookup returning an `Option`. -/
def slabGet (s : Slab) (i : Nat) : Option Task :=
  (s.find? (fun p => p.1 == i)).map Prod.snd

/-- `Slab::remove(idx)` (as used after a task resolves). -/
def slabRemove (s : Slab) (i : Nat) : Slab :=
  s.filter (fun p => !(p.1 == i))

/-- Writing back the advanced behaviour of a task that was polled `Pending`. -/
def slabUpdate (s : Slab) (i : Nat) (v : Task) : Slab :=
  s.map (fun p => if p.1 = i then (i, v) else p)

/-- `Slab::insert` allocates a vacant index; among `0..len` one is always
free. -/
def slabFresh (s : Slab) : Nat :=
  (((List.range (s.length + 1)).filter
    (fun n => s.all (fun p => !(p.1 == n))))).headD s.length

/-- `Slab::insert(task)`: returns the allocated index and the new slab. -/
def slabInsert (s : Slab) (v : Task) : Nat × Slab :=
  (slabFresh s, (slabFresh s, v) :: s)

/-- Observable events of one driver run. -/
inductive Event
| popped (idx : Nat)
| polledConc (idx : Nat)
| selfWake
| exclusiveDone
| futurePolled
| streamPolled
| streamCapped
| mailboxPolled
| dispatched (id : Nat)
| stateReceived (notify : Nat)
| onStopBuilt
deriving DecidableEq, Repr

/-- One iteration body of the wake-queue drain loop (lines 181-190): look the
popped index up with `get_mut`; a live task is polled under a fresh
`ActorWaker` bound to that index (event `polledConc idx`) and removed from
the slab on `Ready`; an absent index is dropped. -/
def drainStep (slab : Slab) (idx : Nat) : Slab × List Event :=
  match slabGet slab idx with
  | some fuel =>
    match pollTask fuel with
    | none => (slabRemove slab idx, [Event.polledConc idx])
    | some f => (slabUpdate slab idx f, [Event.polledConc idx])
  | none => (slab, [])

/-- Result of the wake-queue drain loop (`poll_running`, lines 179-198). -/
structure DrainRes where
  queue : List Nat
  slab : Slab
  popped : List Nat
  selfWake : Bool
  trace : List Event
deriving Repr

/-- The wake-queue drain loop of `poll_running` (lines 179-198): `len` is the
slab length captured before the loop, `polled` the running pop counter.  After
each pop `polled` is incremented; reaching `len` fires
`cx.waker().wake_by_ref()` (event `selfWake`) and breaks out of the loop. -/
def drainLoop (len : Nat) (polled : Nat) (queue : List Nat) (slab : Slab) :
    DrainRes :=
  match queue with
  | [] => ⟨[], slab, [], false, []⟩
  | idx :: rest =>
    let s := drainStep slab idx
    if polled + 1 = len then
      ⟨rest, s.1, [idx], true, Event.popped idx :: s.2 ++ [Event.selfWake]⟩
    else
      let r := drainLoop len (polled + 1) rest s.1
      ⟨r.queue, r.slab, idx :: r.popped, r.selfWake,
        Event.popped idx :: s.2 ++ r.trace⟩

/-- Entry point of the drain loop as `poll_running` calls it: the bound is the
current slab length and the counter starts at zero. -/
def drainRun (queue : List Nat) (slab : Slab) : DrainRes :=
  drainLoop slab.length 0 queue slab

/-- Events an iteration of the drain loop can emit. -/
def benignEv : Event → Bool
| Event.popped _ => true
| Event.polledConc _ => true
| Event.selfWake => true
| _ => false

/-- A message produced by a delayed one-shot or a stream: such entries are
built only through `ActorMessage::new_ref` / `new_mut` (`context.rs`), so they
are concurrent or exclusive, never a state change. -/
inductive CMsg
| ref (id : Nat) (task : Task)
| mut (id : Nat) (task : Task)
deriving DecidableEq, Repr

/-- `ActorMessage` as drained from the mailbox channel (`poll_running`, lines
286-339): a concurrent handler, an exclusive handler, or a state-change
request carrying the target state and a oneshot confirm sender (identified by
a number). -/
inductive Envelope
| ref (id : Nat) (task : Task)
| mut (id : Nat) (task : Task)
| state (target : ActorState) (notify : Nat)
deriving DecidableEq, Repr

/-- Modelled from the spec: `FutureMessage` (`message.rs` is not among the
sources) is a delayed one-shot carrying a sleep future, a cancellation
receiver and a ready envelope; cancellation is observable before the next
poll, and a cancelled entry resolves to `None`. -/
structure FutureMsg where
  sleep : Nat
  canceled : Bool
  msg : CMsg
deriving DecidableEq, Repr

/-- Poll result of a delayed one-shot. -/
inductive FPoll
| fpending (fm : FutureMsg)
| fready (m : Option CMsg)
deriving DecidableEq, Repr

/-- Modelled from the spec: polling a `FutureMessage` observes cancellation
first, then the sleep; the sleep is the number of pending polls remaining. -/
def pollFut (fm : FutureMsg) : FPoll :=
  if fm.canceled then FPoll.fready none
  else
    match fm.sleep with
    | 0 => FPoll.fready (some fm.msg)
    | k + 1 => FPoll.fpending {fm with sleep := k}

/-- Modelled from the spec: a `StreamMessage` (`message.rs` is not among the
sources) is observed by the driver only through `poll_next`; its behaviour is
the list of `Ready` results it will deliver (`none` meaning the stream was
cancelled or finished), followed by `Pending` when the list is exhausted. -/
abbrev StreamBeh := List (Option CMsg)

/-- `ContextFuture<A>`'s state (`context_future.rs`, lines 85-97), with the
mailbox receiver embedded as its pending envelopes plus a closed flag, and
`act.on_stop` embedded as the behaviour of the future it would produce. -/
structure Driver where
  actState : ActorState
  mailbox : List Envelope
  rxClosed : Bool
  queue : List Nat
  cacheMut : Option Task
  cacheRef : Slab
  futureCache : List FutureMsg
  streamCache : List StreamBeh
  dropNotify : Option Nat
  ctxState : ContextState
  extraPoll : Bool
  onStopTask : Task
deriving DecidableEq, Repr

/-- `ContextFuture::add_concurrent` (lines 152-164): set `extra_poll`, invoke
the handler to obtain the task, insert it into the slab and enqueue the new
index on the wake queue. -/
def addConcurrent (st : Driver) (t : Task) : Driver :=
  { st with
    extraPoll := true
    cacheRef := (slabInsert st.cacheRef t).2
    queue := st.queue ++ [(slabInsert st.cacheRef t).1] }

/-- `ContextFuture::add_exclusive` (lines 140-149): invoke `handle_wait` and
install the task in the exclusive slot. -/
def addExclusive (st : Driver) (t : Task) : Driver :=
  { st with cacheMut := some t }

/-- `ContextFuture::have_cache` (lines 167-169). -/
def haveCache (st : Driver) : Bool :=
  !(st.cacheRef.isEmpty) || st.cacheMut.isSome

/-- Outcome of polling the driver future. -/
inductive Outcome
| ready
| pending
| fuelOut
deriving DecidableEq, Repr

/-- Result of a driver poll: outcome, final state and emitted events. -/
structure Res where
  outcome : Outcome
  st : Driver
  trace : List Event
deriving DecidableEq, Repr

def prepRes (tr : List Event) (r : Res) : Res :=
  ⟨r.outcome, r.st, tr ++ r.trace⟩

def prepSumF (tr : List Event) :
    (Driver × List Event) ⊕ Res → (Driver × List Event) ⊕ Res
| Sum.inl (st, tr2) => Sum.inl (st, tr ++ tr2)
| Sum.inr r => Sum.inr (prepRes tr r)

def prepSumS (tr : List Event) :
    (Driver × Bool × List Event) ⊕ Res → (Driver × Bool × List Event) ⊕ Res
| Sum.inl (st, ew, tr2) => Sum.inl (st, ew, tr ++ tr2)
| Sum.inr r => Sum.inr (prepRes tr r)

/-- `Vec::swap_remove(i)`: replace element `i` with the last element and pop
the last. -/
def swapRemove {α : Type} (l : List α) (i : Nat) : List α :=
  (l.take i ++ l.getLast?.toList ++ l.drop (i + 1)).dropLast

/-- One poll of the resident `on_stop`/exclusive task inside `poll_close`
(lines 375-380): `Ready` clears the slot and finishes the driver, `Pending`
stores the advanced behaviour. -/
def pollCloseStep (st : Driver) (t : Task) : Res :=
  match pollTask t with
  | none => ⟨Outcome.ready, {st with cacheMut := none}, []⟩
  | some f => ⟨Outcome.pending, {st with cacheMut := some f}, []⟩

/-- `ContextFuture::poll_close` (lines 373-400): poll a resident task to
completion, otherwise build `on_stop`, install it and poll it. -/
def pollClose (st : Driver) : Res :=
  match st.cacheMut with
  | some t => pollCloseStep st t
  | none =>
    prepRes [Event.onStopBuilt]
      (pollCloseStep {st with cacheMut := some st.onStopTask} st.onStopTask)

/-- The mailbox drain loop of `poll_running` (lines 286-339).  `reenter` is
the recursive `self.poll_running(cx)` call used after an exclusive message is
installed and on the `extra_poll` paths. -/
def chanLoop (reenter : Driver → Res) : List Envelope → Driver → Res
| Envelope.ref id t :: rest, st =>
  let st2 := addConcurrent {st with mailbox := rest} t
  prepRes [Event.mailboxPolled, Event.dispatched id] (chanLoop reenter rest st2)
| Envelope.mut id t :: rest, st =>
  let st2 := addExclusive {st with mailbox := rest} t
  prepRes [Event.mailboxPolled, Event.dispatched id] (reenter st2)
| Envelope.state target nt :: rest, st =>
  let st2 := { st with
    mailbox := rest
    dropNotify := some nt
    rxClosed := true
    actState := ActorState.stopGraceful }
  if target = ActorState.stop then
    prepRes [Event.mailboxPolled, Event.stateReceived nt]
      (pollClose {st2 with ctxState := ContextState.stopping})
  else
    prepRes [Event.mailboxPolled, Event.stateReceived nt]
      (chanLoop reenter rest st2)
| [], st =>
  if st.rxClosed then
    let st2 := {st with actState := ActorState.stopGraceful}
    if st2.extraPoll then prepRes [Event.mailboxPolled] (reenter st2)
    else if haveCache st2 then ⟨Outcome.pending, st2, [Event.mailboxPolled]⟩
    else
      prepRes [Event.mailboxPolled]
        (pollClose {st2 with ctxState := ContextState.stopping})
  else
    if st.extraPoll then prepRes [Event.mailboxPolled] (reenter st)
    else ⟨Outcome.pending, st, [Event.mailboxPolled]⟩

/-- The delayed-message loop of `poll_running` (lines 218-240): walk the
future cache by index; `Ready` entries are removed with `swap_remove`, their
message dispatched (an exclusive one re-enters the driver through `reenter`),
cancelled ones are dropped; `Pending` advances the index. -/
def futLoop (reenter : Driver → Res) :
    Nat → Nat → Driver → (Driver × List Event) ⊕ Res
| 0, _, st => Sum.inr ⟨Outcome.fuelOut, st, []⟩
| g + 1, i, st =>
  if i < st.futureCache.length then
    match pollFut (st.futureCache.getD i ⟨0, true, CMsg.ref 0 0⟩) with
    | FPoll.fpending fm =>
      prepSumF [Event.futurePolled]
        (futLoop reenter g (i + 1) {st with futureCache := st.futureCache.set i fm})
    | FPoll.fready none =>
      prepSumF [Event.futurePolled]
        (futLoop reenter g i {st with futureCache := swapRemove st.futureCache i})
    | FPoll.fready (some (CMsg.ref id t)) =>
      let st2 := addConcurrent {st with futureCache := swapRemove st.futureCache i} t
      prepSumF [Event.futurePolled, Event.dispatched id] (futLoop reenter g i st2)
    | FPoll.fready (some (CMsg.mut id t)) =>
      let st2 := addExclusive {st with futureCache := swapRemove st.futureCache i} t
      Sum.inr (prepRes [Event.futurePolled, Event.dispatched id] (reenter st2))
  else Sum.inl (st, [])

/-- Exit reason of the per-stream inner loop (lines 248-276). -/
inductive SExit
| spending
| sdone
| scap
| sexcl
deriving DecidableEq, Repr

/-- Result of the per-stream inner loop. -/
structure SInner where
  st : Driver
  beh : StreamBeh
  exit : SExit
  accepted : Nat
  trace : List Event
deriving Repr

/-- The per-stream inner loop (lines 248-276): poll one stream while it is
`Ready`, counting every `Ready` in `polled`; a concurrent item is added to
the slab, an exclusive item exits to re-enter the driver, `None` exits with
the stream to be removed; when `polled` reaches 16 after a successful yield
the loop breaks with the cap (`accepted` counts the `Ready(Some)` yields). -/
def streamInner : Nat → StreamBeh → Driver → SInner
| _, [], st => ⟨st, [], SExit.spending, 0, [Event.streamPolled]⟩
| _, none :: rest, st => ⟨st, rest, SExit.sdone, 0, [Event.streamPolled]⟩
| polled, some (CMsg.ref id t) :: rest, st =>
  let st2 := addConcurrent st t
  if polled + 1 = 16 then
    ⟨st2, rest, SExit.scap, 1,
      [Event.streamPolled, Event.dispatched id, Event.streamCapped]⟩
  else
    let r := streamInner (polled + 1) rest st2
    ⟨r.st, r.beh, r.exit, r.accepted + 1,
      Event.streamPolled :: Event.dispatched id :: r.trace⟩
| _, some (CMsg.mut id t) :: rest, st =>
  ⟨addExclusive st t, rest, SExit.sexcl, 1,
    [Event.streamPolled, Event.dispatched id]⟩

/-- The outer stream loop (lines 242-284): iterate the stream cache by index,
running the inner loop for each entry; a capped stream sets the `extra_wake`
flag, an exhausted stream is removed with `swap_remove` (and the index still
advances, as in the source), an exclusive item returns through `reenter`. -/
def streamOuter (reenter : Driver → Res) :
    Nat → Nat → Bool → Driver → (Driver × Bool × List Event) ⊕ Res
| 0, _, _, st => Sum.inr ⟨Outcome.fuelOut, st, []⟩
| g + 1, i, ew, st =>
  if i < st.streamCache.length then
    let r := streamInner 0 (st.streamCache.getD i []) st
    let st2 := {r.st with streamCache := r.st.streamCache.set i r.beh}
    match r.exit with
    | SExit.spending => prepSumS r.trace (streamOuter reenter g (i + 1) ew st2)
    | SExit.scap => prepSumS r.trace (streamOuter reenter g (i + 1) true st2)
    | SExit.sdone =>
      prepSumS r.trace (streamOuter reenter g (i + 1) ew
        {st2 with streamCache := swapRemove st2.streamCache i})
    | SExit.sexcl => Sum.inr (prepRes r.trace (reenter st2))
  else Sum.inl (st, ew, [])

/-- The tail of `poll_running` after the exclusive slot has been dealt with
(lines 212-339): reset `extra_poll`; when the actor state is still `Running`
poll the delayed messages and the streams (firing `wake_by_ref` once if some
stream was capped); finally drain the mailbox channel. -/
def runRest (reenter : Driver → Res) (g : Nat) (st : Driver) : Res :=
  let st1 := {st with extraPoll := false}
  if st1.actState = ActorState.running then
    match futLoop reenter g 0 st1 with
    | Sum.inr r => r
    | Sum.inl (st2, tr1) =>
      match streamOuter reenter g 0 false st2 with
      | Sum.inr r => prepRes tr1 r
      | Sum.inl (st3, ew, tr2) =>
        prepRes (tr1 ++ tr2 ++ if ew then [Event.selfWake] else [])
          (chanLoop reenter st3.mailbox st3)
  else chanLoop reenter st1.mailbox st1

/-- `ContextFuture::poll_running` (lines 172-339) as a fueled state machine:
drain the wake queue (bounded by the slab length), deal with the exclusive
slot — returning `Pending` while concurrent tasks remain, or while the
exclusive task is pending — then run the delayed/stream/mailbox phases.  The
fuel bounds the recursive `self.poll_running(cx)` re-entries. -/
def pollRunningF : Nat → Driver → Res
| 0, st => ⟨Outcome.fuelOut, st, []⟩
| n + 1, st =>
  let d := drainRun st.queue st.cacheRef
  let st1 := {st with queue := d.queue, cacheRef := d.slab}
  match st1.cacheMut with
  | some t =>
    if st1.cacheRef.length ≠ 0 then ⟨Outcome.pending, st1, d.trace⟩
    else
      match pollTask t with
      | some f => ⟨Outcome.pending, {st1 with cacheMut := some f}, d.trace⟩
      | none =>
        prepRes (d.trace ++ [Event.exclusiveDone])
          (runRest (pollRunningF n) n {st1 with cacheMut := none})
  | none => prepRes d.trace (runRest (pollRunningF n) n st1)

/-- Observable effects of a waker invocation (`waker.rs`). -/
inductive WEvent
| enqueued (idx : Nat)
| outerWoken
deriving DecidableEq, Repr

/-- `ActorWaker::wake_by_ref` (`waker.rs`, lines 42-52): push the captured
index onto the shared wake queue (`LinkedList::push_back` under the lock),
then forward the wake to the captured outer waker. -/
def wakeByRefW (q : List Nat) (idx : Nat) : List Nat × List WEvent :=
  (q ++ [idx], [WEvent.enqueued idx, WEvent.outerWoken])

/-- `ActorWaker::wake` (`waker.rs`, lines 29-40): try to unwrap sole
ownership of the waker (`owned` tells whether `RefCounter::try_unwrap`
succeeds); the owned path enqueues the index and consumes the outer waker,
the shared path delegates to `wake_by_ref`. -/
def wakeW (owned : Bool) (q : List Nat) (idx : Nat) : List Nat × List WEvent :=
  if owned then (q ++ [idx], [WEvent.enqueued idx, WEvent.outerWoken])
  else wakeByRefW q idx

/-- `ActixAsyncError` (`error.rs` is not among the sources; kinds from the
spec): `Closed`, `SendTimeout`, `ReceiveTimeout`, and the legacy `Timeout`
alias. -/
inductive AErr
| closed
| sendTimeout
| receiveTimeout
| timeoutLegacy
deriving DecidableEq, Repr

/-- The oneshot reply receiver of a request (`OneshotReceiver<R>`): the
number of pending polls before it resolves, and the delivered value — `none`
when the sender side was dropped, which the request future surfaces as
`Closed` (modelled from the spec: "mailbox closed or reply slot dropped"). -/
structure ReplyRx (R : Type) where
  fuel : Nat
  val : Option R
deriving DecidableEq, Repr

/-- `_MessageRequest` (`request.rs`, lines 26-44): the `Request` state holds
the enqueue future (its remaining pending polls and whether it ends in an
error — modelled from the spec, the channel send future fails only with
`Closed`), the reply receiver, the send-timeout sleep and the optional
response-timeout sleep; the `Response` state holds the receiver and the
response timeout.  Sleeps are the number of pending polls before they fire. -/
inductive MReq (R : Type)
| request (fut : Nat) (futErr : Option AErr) (rx : ReplyRx R)
    (timeout : Nat) (timeoutResponse : Option Nat)
| response (rx : ReplyRx R) (timeoutResponse : Option Nat)
deriving DecidableEq, Repr

/-- `DEFAULT_TIMEOUT` (`request.rs`, line 16) in seconds. -/
def DEFAULT_TIMEOUT : Nat := 10

/-- `_MessageRequest::new` (`request.rs`, lines 52-59): start in the
`Request` state with the default send timeout armed and no response
timeout. -/
def newReq {R : Type} (fut : Nat) (futErr : Option AErr) (rx : ReplyRx R) :
    MReq R :=
  MReq.request fut futErr rx DEFAULT_TIMEOUT none

/-- The `Response` arm of `<_MessageRequest as Future>::poll` (`request.rs`,
lines 130-143): a resolved receiver yields `Ok` or, when the reply slot was
dropped, `Closed`; while it is pending an armed response timeout that fires
yields `ReceiveTimeout`. -/
def pollResponse {R : Type} (rx : ReplyRx R) (tr : Option Nat) :
    Option (Except AErr R) × MReq R :=
  match rx.fuel with
  | 0 =>
    match rx.val with
    | some v => (some (Except.ok v), MReq.response rx tr)
    | none => (some (Except.error AErr.closed), MReq.response rx tr)
  | f + 1 =>
    match tr with
    | some 0 =>
      (some (Except.error AErr.receiveTimeout), MReq.response ⟨f, rx.val⟩ (some 0))
    | some (k + 1) => (none, MReq.response ⟨f, rx.val⟩ (some k))
    | none => (none, MReq.response ⟨f, rx.val⟩ none)

/-- `<_MessageRequest as Future>::poll` (`request.rs`, lines 106-145): in the
`Request` state poll the enqueue future first; on `Ready(Ok)` move to the
`Response` state and poll it immediately, on `Ready(Err)` surface the error,
and while pending poll the send-timeout sleep, yielding `SendTimeout` when it
fires.  `none` as first component is `Poll::Pending`. -/
def pollReq {R : Type} : MReq R → Option (Except AErr R) × MReq R
| MReq.request fut futErr rx tmo tr =>
  match fut with
  | 0 =>
    match futErr with
    | none => pollResponse rx tr
    | some e => (some (Except.error e), MReq.request 0 futErr rx tmo tr)
  | f + 1 =>
    match tmo with
    | 0 => (some (Except.error AErr.sendTimeout), MReq.request f futErr rx 0 tr)
    | k + 1 => (none, MReq.request f futErr rx k tr)
| MReq.response rx tr => pollResponse rx tr

/-- `_MessageRequest::timeout` (`request.rs`, lines 64-79): re-arm the send
timeout in the `Request` state; in any other state the source hits
`unreachable!(TIMEOUT_CONFIGURABLE)` — modelled as `none`. -/
def setTimeout {R : Type} : MReq R → Nat → Option (MReq R)
| MReq.request fut futErr rx _ tr, dur => some (MReq.request fut futErr rx dur tr)
| MReq.response _ _, _ => none

/-- `_MessageRequest::timeout_response` (`request.rs`, lines 84-96): arm the
response timeout in the `Request` state; otherwise the source hits
`unreachable!(TIMEOUT_CONFIGURABLE)` — modelled as `none`. -/
def setTimeoutResponse {R : Type} : MReq R → Nat → Option (MReq R)
| MReq.request fut futErr rx tmo _, dur =>
  some (MReq.request fut futErr rx tmo (some dur))
| MReq.response _ _, _ => none

/-- Whether a request future has reached the `Response` (awaiting) state. -/
def isResponse {R : Type} : MReq R → Bool
| MReq.request _ _ _ _ _ => false
| MReq.response _ _ => true

/-- A request future in the `Sending` state, polled once with both the
enqueue future and the send timeout pending. -/
def reqC8 : MReq Nat := MReq.request 2 none ⟨5, some 7⟩ 9 none

/-- Scanner for the exclusion property: `true` iff before the first
`exclusiveDone` the trace contains only wake-queue drain events — no mailbox
poll, no delayed-message poll, no stream poll and no dispatch. -/
def exclusiveGuard : List Event → Bool
| [] => true
| Event.exclusiveDone :: _ => true
| Event.mailboxPolled :: _ => false
| Event.futurePolled :: _ => false
| Event.streamPolled :: _ => false
| Event.dispatched _ :: _ => false
| _ :: t => exclusiveGuard t

/-- An idle running driver used as the base of the concrete scenarios. -/
def baseSt : Driver :=
  { actState := ActorState.running
    mailbox := []
    rxClosed := false
    queue := []
    cacheMut := none
    cacheRef := []
    futureCache := []
    streamCache := []
    dropNotify := none
    ctxState := ContextState.running
    extraPoll := false
    onStopTask := 0 }

/-- A driver whose exclusive slot is occupied (a task needing 5 more polls)
while a concurrent task (index 0, needing 3 more polls) sits in the slab with
its index on the wake queue. -/
def stC1 : Driver :=
  {baseSt with cacheMut := some 5, cacheRef := [(0, 3)], queue := [0]}

/-- A driver with one pending concurrent task already resident (index 50) and
two attached streams: the first yields 16 consecutive concurrent items, the
second then yields an exclusive item. -/
def stC4 : Driver :=
  { baseSt with
    cacheRef := [(50, 3)]
    streamCache := [List.replicate 16 (some (CMsg.ref 100 1)),
      [some (CMsg.mut 200 2)]] }

/-- A trivial re-entry continuation used in concrete scenarios. -/
def rePend : Driver → Res := fun s => ⟨Outcome.pending, s, []⟩

/-- A driver with a single attached stream that immediately reports `None`. -/
def stW4 : Driver := {baseSt with streamCache := [[none]]}

/-- The completed outer-loop result for `stW4`: the exhausted stream has been
removed. -/
def outW4 : Driver × Bool × List Event := (baseSt, false, [Event.streamPolled])

/-- The confirm-sender identities carried by the `stateReceived` events of a
trace, in order. -/
def stateNotifies (tr : List Event) : List Nat :=
  tr.filterMap fun e =>
    match e with
    | Event.stateReceived n => some n
    | _ => none

/-- The drop-notifier after processing a trace: the last received confirm
sender, or the initial one when the trace received none. -/
def notifyAfter (tr : List Event) (init : Option Nat) : Option Nat :=
  (stateNotifies tr).foldl (fun _ n => some n) init

/-- `impl Drop for ContextFuture` (lines 107-113): take the stored
drop-notifier, if any, and signal it once; the result lists the notified
confirm senders. -/
def dropDriver (st : Driver) : List Nat :=
  match st.dropNotify with
  | some n => [n]
  | none => []

/-- `true` iff `onStopBuilt`, when present, is the final event. -/
def stopLast : List Event → Bool
| [] => true
| Event.onStopBuilt :: t => t.isEmpty
| _ :: t => stopLast t

/-- The ids of the dispatchable (concurrent or exclusive) envelopes of a
mailbox. -/
def mailIds : List Envelope → List Nat
| [] => []
| Envelope.ref id _ :: rest => id :: mailIds rest
| Envelope.mut id _ :: rest => id :: mailIds rest
| Envelope.state _ _ :: rest => mailIds rest

/-- The ids of the messages dispatched in a trace. -/
def dispatchedIds (tr : List Event) : List Nat :=
  tr.filterMap fun e =>
    match e with
    | Event.dispatched i => some i
    | _ => none

/-- `true` iff no envelope requests a forced stop. -/
def noForcedStop (mb : List Envelope) : Bool :=
  mb.all fun e =>
    match e with
    | Envelope.state ActorState.stop _ => false
    | _ => true

/-- The possible shapes of an early-returned `Res`, relative to the state a
loop started from: either a fuel-exhaustion result whose trace carries no
state change and no `on_stop` construction, or a re-entry through `reenter`
from a state with the same mailbox and drop-notifier, prefixed by benign
events. -/
def ResShape (reenter : Driver → Res) (st : Driver) (r : Res) : Prop :=
  (Event.onStopBuilt ∉ r.trace ∧ r.st.dropNotify = st.dropNotify ∧
    stateNotifies r.trace = [] ∧ r.outcome = Outcome.fuelOut) ∨
  (∃ st2 evs, st2.mailbox = st.mailbox ∧ st2.dropNotify = st.dropNotify ∧
    stateNotifies evs = [] ∧ Event.onStopBuilt ∉ evs ∧
    r = prepRes evs (reenter st2))

/-- The three trace invariants a driver-poll function maintains: the final
drop-notifier is the last received confirm sender; `onStopBuilt` can only be
the final event; and when `on_stop` was built, every dispatchable envelope of
the mailbox was dispatched. -/
def ReInv (f : Driver → Res) : Prop :=
  (∀ st, (f st).st.dropNotify = notifyAfter (f st).trace st.dropNotify) ∧
  (∀ st, stopLast (f st).trace = true) ∧
  (∀ st, noForcedStop st.mailbox = true →
    Event.onStopBuilt ∈ (f st).trace →
    ∀ id ∈ mailIds st.mailbox, id ∈ dispatchedIds (f st).trace)

/-- Conclusions of `ReInv` for a single result `r`, relative to a starting
state. -/
def ResInv (st : Driver) (r : Res) : Prop :=
  r.st.dropNotify = notifyAfter r.trace st.dropNotify ∧
  stopLast r.trace = true ∧
  (noForcedStop st.mailbox = true → Event.onStopBuilt ∈ r.trace →
    ∀ id ∈ mailIds st.mailbox, id ∈ dispatchedIds r.trace)

/-- A running driver whose mailbox holds one concurrent message followed by a
graceful stop request. -/
def stG2 : Driver :=
  {baseSt with mailbox := [Envelope.ref 1 0,
    Envelope.state ActorState.stopGraceful 9]}

theorem slabGet_none_iff (s : Slab) (i : Nat) :
    slabGet s i = none ↔ ∀ p ∈ s, p.1 ≠ i := by
  simp [slabGet, List.find?_eq_none]

theorem slabGet_remove_absent (s : Slab) (i j : Nat)
    (h : slabGet s i = none) : slabGet (slabRemove s j) i = none := by
  rw [slabGet_none_iff] at h ⊢
  intro p hp
  exact h p (List.mem_of_mem_filter hp)

theorem slabGet_update_absent (s : Slab) (i j : Nat) (v : Task)
    (h : slabGet s i = none) : slabGet (slabUpdate s j v) i = none := by
  rw [slabGet_none_iff] at h ⊢
  intro p hp
  rcases List.mem_map.mp hp with ⟨q, hq, rfl⟩
  by_cases hk : q.1 = j
  · simpa [hk] using fun hji => h q hq (hk.trans hji)
  · simpa [hk] using h q hq

theorem slabGet_cons (p : Nat × Task) (t : Slab) (i : Nat) :
    slabGet (p :: t) i = if p.1 = i then some p.2 else slabGet t i := by
  by_cases h : p.1 = i
  · rw [slabGet, List.find?_cons_of_pos _ (by simpa using h)]
    simp [h]
  · rw [slabGet, List.find?_cons_of_neg _ (by simpa using h)]
    simp [h, slabGet]

theorem slabRemove_cons (p : Nat × Task) (t : Slab) (j : Nat) :
    slabRemove (p :: t) j =
      if p.1 = j then slabRemove t j else p :: slabRemove t j := by
  by_cases h : p.1 = j
  · rw [slabRemove, List.filter_cons_of_neg (by simpa using h)]
    simp [h, slabRemove]
  · rw [slabRemove, List.filter_cons_of_pos (by simpa using h)]
    simp [h, slabRemove]

theorem slabUpdate_cons (p : Nat × Task) (t : Slab) (j : Nat) (v : Task) :
    slabUpdate (p :: t) j v =
      (if p.1 = j then (j, v) else p) :: slabUpdate t j v := rfl

theorem slabGet_remove_ne (s : Slab) (i j : Nat) (h : i ≠ j) :
    slabGet (slabRemove s j) i = slabGet s i := by
  induction s with
  | nil => rfl
  | cons p t ih =>
    rw [slabRemove_cons, slabGet_cons]
    by_cases hp : p.1 = j
    · have hpi : ¬ p.1 = i := fun hi => h ((hi.symm.trans hp))
      rw [if_pos hp, if_neg hpi]
      exact ih
    · rw [if_neg hp, slabGet_cons]
      by_cases hpi : p.1 = i
      · rw [if_pos hpi, if_pos hpi]
      · rw [if_neg hpi, if_neg hpi]
        exact ih

theorem slabGet_update_ne (s : Slab) (i j : Nat) (v : Task) (h : i ≠ j) :
    slabGet (slabUpdate s j v) i = slabGet s i := by
  induction s with
  | nil => rfl
  | cons p t ih =>
    rw [slabUpdate_cons, slabGet_cons, slabGet_cons]
    by_cases hp : p.1 = j
    · have : ¬ (if p.1 = j then ((j, v) : Nat × Task) else p).1 = i := by
        rw [if_pos hp]
        exact fun hji => h hji.symm
      rw [if_neg this]
      have hpi : ¬ p.1 = i := fun hi => h ((hi.symm.trans hp))
      rw [if_neg hpi]
      exact ih
    · rw [if_neg hp]
      by_cases hpi : p.1 = i
      · rw [if_pos hpi, if_pos hpi]
      · rw [if_neg hpi, if_neg hpi]
        exact ih

theorem slabGet_remove_self (s : Slab) (i : Nat) :
    slabGet (slabRemove s i) i = none := by
  rw [slabGet_none_iff]
  intro p hp
  have := (List.mem_filter.mp hp).2
  simpa using this

theorem drainStep_absent (slab : Slab) (idx i : Nat)
    (h : slabGet slab i = none) : slabGet (drainStep slab idx).1 i = none := by
  unfold drainStep
  rcases hg : slabGet slab idx with _ | fuel
  · simpa using h
  · rcases fuel with _ | f
    · simpa [pollTask] using slabGet_remove_absent slab i idx h
    · simpa [pollTask] using slabGet_update_absent slab i idx f h

theorem drainStep_not_polled (slab : Slab) (idx i : Nat)
    (h : Event.polledConc i ∉ (drainStep slab idx).2) :
    slabGet (drainStep slab idx).1 i = slabGet slab i := by
  unfold drainStep at h ⊢
  rcases hg : slabGet slab idx with _ | fuel
  · rfl
  · rw [hg] at h
    have hne : i ≠ idx := by
      intro hi
      rcases fuel with _ | f <;> simp [pollTask, hi] at h
    rcases fuel with _ | f
    · simpa [pollTask] using slabGet_remove_ne slab i idx hne
    · simpa [pollTask] using slabGet_update_ne slab i idx f hne

theorem drainStep_polled_live (slab : Slab) (idx i : Nat)
    (h : Event.polledConc i ∈ (drainStep slab idx).2) :
    slabGet slab i ≠ none := by
  unfold drainStep at h
  rcases hg : slabGet slab idx with _ | fuel
  · rw [hg] at h; simp at h
  · rw [hg] at h
    have : i = idx := by rcases fuel with _ | f <;> simpa [pollTask] using h
    subst this
    simp [hg]

theorem drainStep_completes (slab : Slab) (idx : Nat)
    (h : slabGet slab idx = some 0) :
    slabGet (drainStep slab idx).1 idx = none := by
  unfold drainStep
  rw [h]
  simpa [pollTask] using slabGet_remove_self slab idx

theorem drainStep_ne (slab : Slab) (idx i : Nat) (h : i ≠ idx) :
    slabGet (drainStep slab idx).1 i = slabGet slab i := by
  unfold drainStep
  rcases hg : slabGet slab idx with _ | fuel
  · rfl
  · rcases fuel with _ | f
    · simpa [pollTask] using slabGet_remove_ne slab i idx h
    · simpa [pollTask] using slabGet_update_ne slab i idx f h

theorem drainStep_live_emits (slab : Slab) (idx : Nat)
    (h : slabGet slab idx ≠ none) :
    (drainStep slab idx).2 = [Event.polledConc idx] := by
  unfold drainStep
  rcases hg : slabGet slab idx with _ | fuel
  · exact absurd hg h
  · rcases fuel with _ | f <;> simp [pollTask]

theorem drainStep_benign (slab : Slab) (idx : Nat) :
    ∀ e ∈ (drainStep slab idx).2, benignEv e = true := by
  unfold drainStep
  rcases hg : slabGet slab idx with _ | fuel
  · simp
  · rcases fuel with _ | f <;> simp [pollTask, benignEv]

theorem drainLoop_trace_benign (len : Nat) (queue : List Nat) :
    ∀ (polled : Nat) (slab : Slab),
      ∀ e ∈ (drainLoop len polled queue slab).trace, benignEv e = true := by
  induction queue with
  | nil => intro polled slab e he; simp [drainLoop] at he
  | cons idx rest ih =>
    intro polled slab e he
    rw [drainLoop] at he
    by_cases hb : polled + 1 = len
    · rw [if_pos hb] at he
      simp only [List.mem_cons, List.mem_append, List.mem_singleton] at he
      rcases he with (rfl | he) | (rfl | hx)
      · rfl
      · exact drainStep_benign slab idx e he
      · rfl
      · cases hx
    · rw [if_neg hb] at he
      simp only [List.mem_cons, List.mem_append] at he
      rcases he with (rfl | he) | he
      · rfl
      · exact drainStep_benign slab idx e he
      · exact ih (polled + 1) (drainStep slab idx).1 e he

theorem drainLoop_absent (len : Nat) (queue : List Nat) :
    ∀ (polled : Nat) (slab : Slab) (i : Nat), slabGet slab i = none →
      slabGet (drainLoop len polled queue slab).slab i = none := by
  induction queue with
  | nil => intro polled slab i h; simpa [drainLoop] using h
  | cons idx rest ih =>
    intro polled slab i h
    rw [drainLoop]
    by_cases hb : polled + 1 = len
    · rw [if_pos hb]
      exact drainStep_absent slab idx i h
    · rw [if_neg hb]
      exact ih (polled + 1) (drainStep slab idx).1 i (drainStep_absent slab idx i h)

theorem drainLoop_popped_le (len : Nat) (queue : List Nat) :
    ∀ (polled : Nat) (slab : Slab), polled < len →
      (drainLoop len polled queue slab).popped.length ≤ len - polled := by
  induction queue with
  | nil => intro polled slab _; simp [drainLoop]
  | cons idx rest ih =>
    intro polled slab hlt
    rw [drainLoop]
    by_cases hb : polled + 1 = len
    · rw [if_pos hb]
      simp only [List.length_singleton]
      omega
    · rw [if_neg hb]
      have hlt2 : polled + 1 < len := by omega
      have := ih (polled + 1) (drainStep slab idx).1 hlt2
      simp only [List.length_cons]
      omega

theorem drainLoop_selfWake_iff (len : Nat) (queue : List Nat) :
    ∀ (polled : Nat) (slab : Slab), polled < len →
      ((drainLoop len polled queue slab).selfWake = true ↔
        (drainLoop len polled queue slab).popped.length = len - polled) := by
  induction queue with
  | nil =>
    intro polled slab hlt
    simp only [drainLoop, List.length_nil]
    constructor
    · intro h; cases h
    · intro h; omega
  | cons idx rest ih =>
    intro polled slab hlt
    rw [drainLoop]
    by_cases hb : polled + 1 = len
    · rw [if_pos hb]
      simp only [List.length_singleton]
      constructor
      · intro _; omega
      · intro _; trivial
    · rw [if_neg hb]
      have hlt2 : polled + 1 < len := by omega
      have h1 := ih (polled + 1) (drainStep slab idx).1 hlt2
      have h2 := drainLoop_popped_le len rest (polled + 1) (drainStep slab idx).1 hlt2
      simp only [List.length_cons]
      constructor
      · intro h
        have := h1.mp h
        omega
      · intro h
        apply h1.mpr
        omega

theorem drainLoop_polled_live (len : Nat) (queue : List Nat) :
    ∀ (polled : Nat) (slab : Slab) (i : Nat),
      Event.polledConc i ∈ (drainLoop len polled queue slab).trace →
      slabGet slab i ≠ none := by
  induction queue with
  | nil => intro polled slab i h; simp [drainLoop] at h
  | cons idx rest ih =>
    intro polled slab i h
    rw [drainLoop] at h
    by_cases hb : polled + 1 = len
    · rw [if_pos hb] at h
      simp only [List.mem_cons, List.mem_append, List.mem_singleton] at h
      rcases h with (h | h) | (h | hx)
      · cases h
      · exact drainStep_polled_live slab idx i h
      · cases h
      · cases hx
    · rw [if_neg hb] at h
      simp only [List.mem_cons, List.mem_append] at h
      rcases h with (h | h) | h
      · cases h
      · exact drainStep_polled_live slab idx i h
      · intro hnone
        exact ih (polled + 1) (drainStep slab idx).1 i h
          (drainStep_absent slab idx i hnone)

theorem drainLoop_untouched (len : Nat) (queue : List Nat) :
    ∀ (polled : Nat) (slab : Slab) (i : Nat),
      Event.polledConc i ∉ (drainLoop len polled queue slab).trace →
      slabGet (drainLoop len polled queue slab).slab i = slabGet slab i := by
  induction queue with
  | nil => intro polled slab i _; simp [drainLoop]
  | cons idx rest ih =>
    intro polled slab i h
    rw [drainLoop] at h ⊢
    by_cases hb : polled + 1 = len
    · rw [if_pos hb] at h ⊢
      simp only [List.mem_cons, List.mem_append, List.mem_singleton] at h
      push_neg at h
      exact drainStep_not_polled slab idx i h.1.2
    · rw [if_neg hb] at h ⊢
      simp only [List.mem_cons, List.mem_append] at h
      push_neg at h
      rw [ih (polled + 1) (drainStep slab idx).1 i h.2]
      exact drainStep_not_polled slab idx i h.1.2

theorem drainLoop_live_pop_polls (len : Nat) (queue : List Nat) :
    ∀ (polled : Nat) (slab : Slab) (i : Nat),
      i ∈ (drainLoop len polled queue slab).popped →
      slabGet slab i ≠ none →
      Event.polledConc i ∈ (drainLoop len polled queue slab).trace := by
  induction queue with
  | nil => intro polled slab i h; simp [drainLoop] at h
  | cons idx rest ih =>
    intro polled slab i h hlive
    rw [drainLoop] at h ⊢
    by_cases hb : polled + 1 = len
    · rw [if_pos hb] at h ⊢
      simp only [List.mem_singleton] at h
      subst h
      rw [drainStep_live_emits slab i hlive]
      simp
    · rw [if_neg hb] at h ⊢
      simp only [List.mem_cons] at h
      by_cases hidx : i = idx
      · subst hidx
        rw [drainStep_live_emits slab i hlive]
        simp
      · rcases h with h | h
        · exact absurd h hidx
        · have hlive2 : slabGet (drainStep slab idx).1 i ≠ none := by
            rw [drainStep_ne slab idx i hidx]; exact hlive
          have := ih (polled + 1) (drainStep slab idx).1 i h hlive2
          simp only [List.mem_cons, List.mem_append]
          exact Or.inr this

theorem drainLoop_freed_on_ready (len : Nat) (queue : List Nat) :
    ∀ (polled : Nat) (slab : Slab) (i : Nat),
      i ∈ (drainLoop len polled queue slab).popped →
      slabGet slab i = some 0 →
      slabGet (drainLoop len polled queue slab).slab i = none := by
  induction queue with
  | nil => intro polled slab i h; simp [drainLoop] at h
  | cons idx rest ih =>
    intro polled slab i h hready
    rw [drainLoop] at h ⊢
    by_cases hb : polled + 1 = len
    · rw [if_pos hb] at h ⊢
      simp only [List.mem_singleton] at h
      subst h
      exact drainStep_completes slab i hready
    · rw [if_neg hb] at h ⊢
      simp only [List.mem_cons] at h
      by_cases hidx : i = idx
      · subst hidx
        exact drainLoop_absent len rest (polled + 1) (drainStep slab i).1 i
          (drainStep_completes slab i hready)
      · rcases h with h | h
        · exact absurd h hidx
        · have : slabGet (drainStep slab idx).1 i = some 0 := by
            rw [drainStep_ne slab idx i hidx]; exact hready
          exact ih (polled + 1) (drainStep slab idx).1 i h this

/-- C10: `ActorWaker::wake` (the owned path that tries to unwrap sole
ownership) and `ActorWaker::wake_by_ref` have the same observable effect in
every wake-queue state: both enqueue the captured index at the back of the
shared queue and then wake the captured outer waker, in that order. -/
theorem c10_wake_equiv (owned : Bool) (q : List Nat) (idx : Nat) :
    wakeW owned q idx = wakeByRefW q idx ∧
    wakeByRefW q idx = (q ++ [idx], [WEvent.enqueued idx, WEvent.outerWoken]) := by
  cases owned <;> exact ⟨rfl, rfl⟩

/-- C7: the request future resolves to exactly one of `SendTimeout` (enqueue
pending and the send-timeout sleep — armed to the 10-second default by the
constructor — fires), `ReceiveTimeout` (reply pending and the armed response
timeout fires), `Closed` (the enqueue fails or the reply slot was dropped),
or `Ok` (the reply slot is fulfilled); in all remaining configurations the
poll is pending.  The conjuncts enumerate every configuration of the
two-state machine. -/
theorem c7_request_outcomes (R : Type) :
    (∀ (fut : Nat) (futErr : Option AErr) (rx : ReplyRx R),
      newReq fut futErr rx = MReq.request fut futErr rx 10 none) ∧
    (∀ (f : Nat) (fe : Option AErr) (rx : ReplyRx R) (tr : Option Nat),
      (pollReq (MReq.request (f + 1) fe rx 0 tr)).1 =
        some (Except.error AErr.sendTimeout)) ∧
    (∀ (f : Nat) (fe : Option AErr) (rx : ReplyRx R) (k : Nat) (tr : Option Nat),
      (pollReq (MReq.request (f + 1) fe rx (k + 1) tr)).1 = none) ∧
    (∀ (e : AErr) (rx : ReplyRx R) (tmo : Nat) (tr : Option Nat),
      (pollReq (MReq.request 0 (some e) rx tmo tr)).1 = some (Except.error e)) ∧
    (∀ (rx : ReplyRx R) (tmo : Nat) (tr : Option Nat),
      pollReq (MReq.request 0 none rx tmo tr) = pollResponse rx tr) ∧
    (∀ (v : R) (tr : Option Nat),
      (pollReq (MReq.response ⟨0, some v⟩ tr)).1 = some (Except.ok v)) ∧
    (∀ tr : Option Nat,
      (pollReq (MReq.response (⟨0, none⟩ : ReplyRx R) tr)).1 =
        some (Except.error AErr.closed)) ∧
    (∀ (f : Nat) (v : Option R),
      (pollReq (MReq.response ⟨f + 1, v⟩ (some 0))).1 =
        some (Except.error AErr.receiveTimeout)) ∧
    (∀ (f : Nat) (v : Option R) (k : Nat),
      (pollReq (MReq.response ⟨f + 1, v⟩ (some (k + 1)))).1 = none) ∧
    (∀ (f : Nat) (v : Option R),
      (pollReq (MReq.response ⟨f + 1, v⟩ none)).1 = none) :=
  ⟨fun _ _ _ => rfl, fun _ _ _ _ => rfl, fun _ _ _ _ _ => rfl,
    fun _ _ _ _ => rfl, fun _ _ _ => rfl, fun _ _ => rfl, fun _ => rfl,
    fun _ _ => rfl, fun _ _ _ => rfl, fun _ _ => rfl⟩

/-- C8 counterexample: a request future that has been polled at least once
(the poll returned `Pending` while still in the `Sending` state) still
accepts both `timeout` and `timeout_response` without reaching the
`unreachable!` branch, contradicting the claim that any call after the first
poll panics. -/
theorem c8_counterexample :
    (pollReq reqC8).1 = none ∧
    (setTimeout (pollReq reqC8).2 3).isSome = true ∧
    (setTimeoutResponse (pollReq reqC8).2 3).isSome = true :=
  ⟨rfl, rfl, rfl⟩

/-- C8 (amended): `timeout` and `timeout_response` reach the `unreachable!`
branch exactly when the future has moved to the `Response` (awaiting) state,
which happens in the first poll whose enqueue future completes successfully;
polls that leave the future in the `Sending` state do not disable
configuration. -/
theorem c8_timeout_guard (R : Type) :
    (∀ (req : MReq R) (d : Nat),
      (setTimeout req d).isNone = isResponse req ∧
      (setTimeoutResponse req d).isNone = isResponse req) ∧
    (∀ (f : Nat) (fe : Option AErr) (rx : ReplyRx R) (tmo : Nat)
        (tr : Option Nat),
      isResponse (pollReq (MReq.request f fe rx tmo tr)).2 = true ↔
        f = 0 ∧ fe = none) := by
  constructor
  · intro req d
    cases req <;> exact ⟨rfl, rfl⟩
  · intro f fe rx tmo tr
    match f, fe with
    | 0, none =>
      simp only [pollReq, eq_self_iff_true, and_true]
      unfold pollResponse
      rcases rx with ⟨_ | rf, v⟩
      · rcases v with _ | v <;> simp [isResponse]
      · rcases tr with _ | (_ | k) <;> simp [isResponse]
    | 0, some e => simp [pollReq, isResponse]
    | f + 1, fe =>
      rcases tmo with _ | k <;> simp [pollReq, isResponse]

theorem exclusiveGuard_append (t1 t2 : List Event)
    (h : ∀ e ∈ t1, benignEv e = true) :
    exclusiveGuard (t1 ++ t2) = exclusiveGuard t2 := by
  induction t1 with
  | nil => rfl
  | cons e t ih =>
    have he := h e (List.mem_cons_self e t)
    have ht : ∀ x ∈ t, benignEv x = true :=
      fun x hx => h x (List.mem_cons_of_mem e hx)
    cases e <;> simp [benignEv] at he ⊢ <;> exact ih ht

theorem exclusiveGuard_of_benign (t1 : List Event)
    (h : ∀ e ∈ t1, benignEv e = true) : exclusiveGuard t1 = true := by
  have := exclusiveGuard_append t1 [] h
  simpa using this

theorem exclusiveGuard_done (t1 t2 : List Event)
    (h : ∀ e ∈ t1, benignEv e = true) :
    exclusiveGuard (t1 ++ Event.exclusiveDone :: t2) = true := by
  rw [exclusiveGuard_append t1 _ h]
  rfl

/-- C1 counterexample: with the exclusive slot occupied and unfinished, one
poll of `poll_running` still polls the concurrent task at index 0 from the
wake queue — its trace is exactly a pop, a concurrent poll and the drain
bound's self-wake, with no `exclusiveDone` — refuting "no concurrent task in
the slab is polled while cache_mut holds a task".  (The mailbox is indeed not
polled.) -/
theorem c1_counterexample :
    (pollRunningF 3 stC1).trace =
      [Event.popped 0, Event.polledConc 0, Event.selfWake] ∧
    (pollRunningF 3 stC1).outcome = Outcome.pending ∧
    stC1.cacheMut.isSome = true := by
  decide

/-- C1 (amended): while `cache_mut` holds a task, `act_rx` is not polled for
new envelopes, no delayed-message or stream future is polled and no message
is dispatched until the exclusive future completes; already-resident
concurrent tasks in `cache_ref`, however, are still polled from the wake
queue.  Formally: in every poll of the driver starting with an occupied
exclusive slot, the trace up to the first `exclusiveDone` contains only
wake-queue drain events. -/
theorem c1_mailbox_guarded (fuel : Nat) (st : Driver)
    (h : st.cacheMut.isSome = true) :
    exclusiveGuard (pollRunningF fuel st).trace = true := by
  cases fuel with
  | zero => rfl
  | succ n =>
    rcases hm : st.cacheMut with _ | t
    · rw [hm] at h; cases h
    · have hbenign : ∀ e ∈ (drainRun st.queue st.cacheRef).trace,
          benignEv e = true :=
        fun e he =>
          drainLoop_trace_benign st.cacheRef.length st.queue 0 st.cacheRef e he
      unfold pollRunningF
      dsimp only
      rw [hm]
      dsimp only
      by_cases hlen : (drainRun st.queue st.cacheRef).slab.length ≠ 0
      · rw [if_pos hlen]
        exact exclusiveGuard_of_benign _ hbenign
      · rw [if_neg hlen]
        rcases ht : pollTask t with _ | f
        · dsimp only [prepRes]
          rw [List.append_assoc]
          exact exclusiveGuard_done _ _ hbenign
        · exact exclusiveGuard_of_benign _ hbenign

/-- C1 witness: the guard theorem applied to the concrete occupied driver. -/
theorem c1_witness :
    stC1.cacheMut.isSome = true ∧
    exclusiveGuard (pollRunningF 3 stC1).trace = true :=
  ⟨by decide, c1_mailbox_guarded 3 stC1 (by decide)⟩

/-- C2 counterexample: with an empty slab (`len = 0`) and a stale index on
the wake queue, the drain loop pops that index — one pop, exceeding the
slab-length bound of zero — and leaves without calling `wake_by_ref`: the
`polled == len` break can never fire when `len = 0`. -/
theorem c2_counterexample :
    (drainRun [7] ([] : Slab)).popped.length = 1 ∧
    ([] : Slab).length = 0 ∧
    (drainRun [7] ([] : Slab)).selfWake = false := by
  decide

/-- C2 (amended): in one running cycle, provided the slab is non-empty when
the drain loop starts, at most `len(cache_ref)` indices are popped, the
self-wake fires exactly when the pop count reaches that bound, every popped
index that is live is polled under a waker bound to it, and a popped task
that resolves has its slot freed; with an empty slab the whole queue is
drained without any poll or self-wake. -/
theorem c2_drain_bound (queue : List Nat) (slab : Slab)
    (h : 1 ≤ slab.length) :
    (drainRun queue slab).popped.length ≤ slab.length ∧
    ((drainRun queue slab).selfWake = true ↔
      (drainRun queue slab).popped.length = slab.length) ∧
    (∀ i ∈ (drainRun queue slab).popped, slabGet slab i ≠ none →
      Event.polledConc i ∈ (drainRun queue slab).trace) ∧
    (∀ i ∈ (drainRun queue slab).popped, slabGet slab i = some 0 →
      slabGet (drainRun queue slab).slab i = none) := by
  have h0 : 0 < slab.length := h
  refine ⟨?_, ?_, ?_, ?_⟩
  · simpa using drainLoop_popped_le slab.length queue 0 slab h0
  · simpa using drainLoop_selfWake_iff slab.length queue 0 slab h0
  · exact fun i hi hl => drainLoop_live_pop_polls slab.length queue 0 slab i hi hl
  · exact fun i hi hr => drainLoop_freed_on_ready slab.length queue 0 slab i hi hr

/-- C2 witness: the bound applied to a queue of two stale wakes of the single
live task. -/
theorem c2_witness :
    (drainRun [0, 0] [(0, 0)]).popped.length ≤ ([(0, 0)] : Slab).length :=
  (c2_drain_bound [0, 0] [(0, 0)] (by decide)).1

/-- C3: indexing the slab is total — for every index popped from the wake
queue, either it identifies a live task (which is then polled: a
`polledConc` event for it appears), or it is silently dropped: only live
indices are ever polled, and the slab entry of any index that is never
polled is left untouched by the whole drain loop. -/
theorem c3_popped_total (queue : List Nat) (slab : Slab) :
    (∀ i, Event.polledConc i ∈ (drainRun queue slab).trace →
      slabGet slab i ≠ none) ∧
    (∀ i ∈ (drainRun queue slab).popped, slabGet slab i ≠ none →
      Event.polledConc i ∈ (drainRun queue slab).trace) ∧
    (∀ i, Event.polledConc i ∉ (drainRun queue slab).trace →
      slabGet (drainRun queue slab).slab i = slabGet slab i) :=
  ⟨fun i hi => drainLoop_polled_live slab.length queue 0 slab i hi,
    fun i hi hl => drainLoop_live_pop_polls slab.length queue 0 slab i hi hl,
    fun i hi => drainLoop_untouched slab.length queue 0 slab i hi⟩

/-- C3 witness: a stale pop (index 3 is not in the slab) leaves the live
entry at index 0 untouched. -/
theorem c3_witness :
    slabGet (drainRun [3] [(0, 1)]).slab 0 = slabGet [(0, 1)] 0 :=
  (c3_popped_total [3] [(0, 1)]).2.2 0 (by decide)

theorem streamInner_accepted_le (beh : StreamBeh) :
    ∀ (polled : Nat) (st : Driver), polled < 16 →
      (streamInner polled beh st).accepted ≤ 16 - polled := by
  induction beh with
  | nil => intro polled st _; simp [streamInner]
  | cons hd rest ih =>
    intro polled st hlt
    rcases hd with _ | m
    · simp [streamInner]
    · rcases m with ⟨id, t⟩ | ⟨id, t⟩
      · by_cases hc : polled + 1 = 16
        · simp only [streamInner, if_pos hc]
          omega
        · simp only [streamInner, if_neg hc]
          have h2 : polled + 1 < 16 := by omega
          have := ih (polled + 1) (addConcurrent st t) h2
          omega
      · show 1 ≤ 16 - polled
        omega

theorem streamInner_cap_iff (beh : StreamBeh) :
    ∀ (polled : Nat) (st : Driver),
      (Event.streamCapped ∈ (streamInner polled beh st).trace ↔
        (streamInner polled beh st).exit = SExit.scap) := by
  induction beh with
  | nil => intro polled st; simp [streamInner]
  | cons hd rest ih =>
    intro polled st
    rcases hd with _ | m
    · simp [streamInner]
    · rcases m with ⟨id, t⟩ | ⟨id, t⟩
      · by_cases hc : polled + 1 = 16
        · simp only [streamInner, if_pos hc]
          simp
        · simp only [streamInner, if_neg hc]
          rw [List.mem_cons, List.mem_cons]
          simp only [ih (polled + 1) (addConcurrent st t)]
          constructor
          · rintro (h | h | h)
            · cases h
            · cases h
            · exact h
          · intro h
            exact Or.inr (Or.inr h)
      · simp [streamInner]

theorem streamInner_preserves (beh : StreamBeh) :
    ∀ (polled : Nat) (st : Driver),
      (streamInner polled beh st).st.streamCache = st.streamCache ∧
      (streamInner polled beh st).st.mailbox = st.mailbox := by
  induction beh with
  | nil => intro polled st; exact ⟨rfl, rfl⟩
  | cons hd rest ih =>
    intro polled st
    rcases hd with _ | m
    · exact ⟨rfl, rfl⟩
    · rcases m with ⟨id, t⟩ | ⟨id, t⟩
      · by_cases hc : polled + 1 = 16
        · simp only [streamInner, if_pos hc]
          exact ⟨rfl, rfl⟩
        · simp only [streamInner, if_neg hc]
          exact ih (polled + 1) (addConcurrent st t)
      · exact ⟨rfl, rfl⟩

theorem swapRemove_length {α : Type} (l : List α) (i : Nat)
    (h : i < l.length) : (swapRemove l i).length = l.length - 1 := by
  have hne : l ≠ [] := by
    intro hl
    rw [hl] at h
    simp at h
  obtain ⟨a, ha⟩ := Option.isSome_iff_exists.mp (List.getLast?_isSome.mpr hne)
  unfold swapRemove
  rw [ha]
  simp only [Option.toList_some, List.length_dropLast, List.length_append,
    List.length_take, List.length_cons, List.length_nil, List.length_drop]
  have : min i l.length = i := Nat.min_eq_left (Nat.le_of_lt h)
  omega

theorem prepSumS_inl (tr : List Event)
    (x : (Driver × Bool × List Event) ⊕ Res) (out : Driver × Bool × List Event)
    (h : prepSumS tr x = Sum.inl out) :
    ∃ o, x = Sum.inl o ∧ out = (o.1, o.2.1, tr ++ o.2.2) := by
  rcases x with o | r
  · refine ⟨o, rfl, ?_⟩
    simp only [prepSumS, Sum.inl.injEq] at h
    rw [← h]
  · simp [prepSumS] at h

theorem streamOuter_len_mono (g : Nat) :
    ∀ (reenter : Driver → Res) (i : Nat) (ew : Bool) (st : Driver)
      (out : Driver × Bool × List Event),
      streamOuter reenter g i ew st = Sum.inl out →
      out.1.streamCache.length ≤ st.streamCache.length := by
  induction g with
  | zero => intro reenter i ew st out h; simp [streamOuter] at h
  | succ g ih =>
    intro reenter i ew st out h
    simp only [streamOuter] at h
    by_cases hi : i < st.streamCache.length
    · rw [if_pos hi] at h
      rcases hex : (streamInner 0 (st.streamCache.getD i []) st).exit with _ | _ | _ | _
      all_goals rw [hex] at h
      all_goals dsimp only at h
      · obtain ⟨o, hx, hout⟩ := prepSumS_inl _ _ _ h
        have hmono := ih _ _ _ _ _ hx
        have hpres := (streamInner_preserves (st.streamCache.getD i []) 0 st).1
        rw [hout]
        simp only [List.length_set, hpres] at hmono
        exact hmono
      · obtain ⟨o, hx, hout⟩ := prepSumS_inl _ _ _ h
        have hmono := ih _ _ _ _ _ hx
        have hpres := (streamInner_preserves (st.streamCache.getD i []) 0 st).1
        have hlen : i < ((streamInner 0 (st.streamCache.getD i []) st).st.streamCache.set i
            (streamInner 0 (st.streamCache.getD i []) st).beh).length := by
          simp only [List.length_set, hpres]
          exact hi
        rw [swapRemove_length _ i hlen] at hmono
        simp only [List.length_set, hpres] at hmono
        rw [hout]
        dsimp only
        omega
      · obtain ⟨o, hx, hout⟩ := prepSumS_inl _ _ _ h
        have hmono := ih _ _ _ _ _ hx
        have hpres := (streamInner_preserves (st.streamCache.getD i []) 0 st).1
        rw [hout]
        simp only [List.length_set, hpres] at hmono
        exact hmono
      · cases h
    · rw [if_neg hi] at h
      simp only [Sum.inl.injEq] at h
      subst h
      exact Nat.le_refl _

theorem streamOuter_capped_flag (g : Nat) :
    ∀ (reenter : Driver → Res) (i : Nat) (ew : Bool) (st : Driver)
      (out : Driver × Bool × List Event),
      streamOuter reenter g i ew st = Sum.inl out →
      (ew = true ∨ Event.streamCapped ∈ out.2.2) → out.2.1 = true := by
  induction g with
  | zero => intro reenter i ew st out h; simp [streamOuter] at h
  | succ g ih =>
    intro reenter i ew st out h hcap
    simp only [streamOuter] at h
    by_cases hi : i < st.streamCache.length
    · rw [if_pos hi] at h
      rcases hex : (streamInner 0 (st.streamCache.getD i []) st).exit with _ | _ | _ | _
      all_goals rw [hex] at h
      all_goals dsimp only at h
      · obtain ⟨o, hx, hout⟩ := prepSumS_inl _ _ _ h
        subst hout
        dsimp only at hcap ⊢
        apply ih _ _ _ _ _ hx
        rcases hcap with hew | hmem
        · exact Or.inl hew
        · rcases List.mem_append.mp hmem with hmem | hmem
          · rw [streamInner_cap_iff] at hmem
            rw [hmem] at hex
            cases hex
          · exact Or.inr hmem
      · obtain ⟨o, hx, hout⟩ := prepSumS_inl _ _ _ h
        subst hout
        dsimp only at hcap ⊢
        apply ih _ _ _ _ _ hx
        rcases hcap with hew | hmem
        · exact Or.inl hew
        · rcases List.mem_append.mp hmem with hmem | hmem
          · rw [streamInner_cap_iff] at hmem
            rw [hmem] at hex
            cases hex
          · exact Or.inr hmem
      · obtain ⟨o, hx, hout⟩ := prepSumS_inl _ _ _ h
        subst hout
        dsimp only
        exact ih _ _ _ _ _ hx (Or.inl rfl)
      · cases h
    · rw [if_neg hi] at h
      simp only [Sum.inl.injEq] at h
      subst h
      rcases hcap with hew | hmem
      · exact hew
      · simp at hmem

theorem streamOuter_done_shrinks (g : Nat) (reenter : Driver → Res)
    (i : Nat) (ew : Bool) (st : Driver) (out : Driver × Bool × List Event)
    (hi : i < st.streamCache.length)
    (hdone : (streamInner 0 (st.streamCache.getD i []) st).exit = SExit.sdone)
    (h : streamOuter reenter (g + 1) i ew st = Sum.inl out) :
    out.1.streamCache.length < st.streamCache.length := by
  simp only [streamOuter] at h
  rw [if_pos hi, hdone] at h
  dsimp only at h
  obtain ⟨o, hx, hout⟩ := prepSumS_inl _ _ _ h
  have hmono := streamOuter_len_mono g _ _ _ _ _ hx
  have hpres := (streamInner_preserves (st.streamCache.getD i []) 0 st).1
  have hlen : i < ((streamInner 0 (st.streamCache.getD i []) st).st.streamCache.set i
      (streamInner 0 (st.streamCache.getD i []) st).beh).length := by
    simp only [List.length_set, hpres]
    exact hi
  rw [swapRemove_length _ i hlen] at hmono
  simp only [List.length_set, hpres] at hmono
  rw [hout]
  dsimp only
  omega

theorem runRest_selfWake (reenter : Driver → Res) (g : Nat) (st st2 st3 : Driver)
    (tr1 tr2 : List Event)
    (hact : st.actState = ActorState.running)
    (hfut : futLoop reenter g 0 {st with extraPoll := false} = Sum.inl (st2, tr1))
    (hstr : streamOuter reenter g 0 false st2 = Sum.inl (st3, true, tr2)) :
    Event.selfWake ∈ (runRest reenter g st).trace := by
  unfold runRest
  dsimp only
  rw [if_pos (show ({st with extraPoll := false} : Driver).actState =
    ActorState.running from hact)]
  rw [hfut]
  dsimp only
  rw [hstr]
  dsimp only [prepRes]
  simp

/-- C4 counterexample: the first stream hits the 16-yield cap (the
`streamCapped` flag event is emitted), but the second stream then yields an
exclusive message, so `poll_running` returns through the re-entry before the
`extra_wake` check and `wake_by_ref` is never called in the whole poll —
refuting the unconditional "wake_by_ref is called on the outer waker after
the loop". -/
theorem c4_counterexample :
    Event.streamCapped ∈ (pollRunningF 6 stC4).trace ∧
    (pollRunningF 6 stC4).trace.count Event.selfWake = 0 := by
  decide

/-- C4 (amended): per pass a stream yields at most 16 `Ready(Some)` items
before the driver breaks out of it; a hit cap sets the `extra_wake` flag,
which survives to the end of the outer loop whenever that loop completes (and
then, if the stream phase is reached with the actor running, `wake_by_ref`
fires after the loop) — but an exclusive item from a later stream returns
early and skips the wake; and a `Ready(None)` stream is removed from the
stream cache.  -/
theorem c4_stream_caps :
    (∀ (beh : StreamBeh) (st : Driver), (streamInner 0 beh st).accepted ≤ 16) ∧
    (∀ (reenter : Driver → Res) (g i : Nat) (ew : Bool) (st : Driver)
        (out : Driver × Bool × List Event),
      streamOuter reenter g i ew st = Sum.inl out →
      Event.streamCapped ∈ out.2.2 → out.2.1 = true) ∧
    (∀ (reenter : Driver → Res) (g i : Nat) (ew : Bool) (st : Driver)
        (out : Driver × Bool × List Event),
      i < st.streamCache.length →
      (streamInner 0 (st.streamCache.getD i []) st).exit = SExit.sdone →
      streamOuter reenter (g + 1) i ew st = Sum.inl out →
      out.1.streamCache.length < st.streamCache.length) ∧
    (∀ (reenter : Driver → Res) (g : Nat) (st st2 st3 : Driver)
        (tr1 tr2 : List Event),
      st.actState = ActorState.running →
      futLoop reenter g 0 {st with extraPoll := false} = Sum.inl (st2, tr1) →
      streamOuter reenter g 0 false st2 = Sum.inl (st3, true, tr2) →
      Event.selfWake ∈ (runRest reenter g st).trace) :=
  ⟨fun beh st => by simpa using streamInner_accepted_le beh 0 st (by omega),
    fun reenter g i ew st out h hc =>
      streamOuter_capped_flag g reenter i ew st out h (Or.inr hc),
    fun reenter g i ew st out hi hd h =>
      streamOuter_done_shrinks g reenter i ew st out hi hd h,
    fun reenter g st st2 st3 tr1 tr2 ha hf hs =>
      runRest_selfWake reenter g st st2 st3 tr1 tr2 ha hf hs⟩

/-- C4 witness: the stream that reports `None` is removed — the stream cache
shrinks. -/
theorem c4_witness : outW4.1.streamCache.length < stW4.streamCache.length :=
  (c4_stream_caps).2.2.1 rePend 1 0 false stW4 outW4 (by decide) (by decide)
    (by decide)

/-- C5: receiving `ActorMessage::State(state, notify)` saves `notify` as the
drop-notifier, closes the receiver channel and sets the actor state to
`StopGraceful`; when the requested state is `Stop` the driver transitions to
`Stopping` and enters `poll_close`, otherwise it keeps draining the
mailbox. -/
theorem c5_state_change (reenter : Driver → Res) (target : ActorState)
    (nt : Nat) (rest : List Envelope) (st : Driver) :
    (target = ActorState.stop →
      chanLoop reenter (Envelope.state target nt :: rest) st =
        prepRes [Event.mailboxPolled, Event.stateReceived nt]
          (pollClose { st with
            mailbox := rest
            dropNotify := some nt
            rxClosed := true
            actState := ActorState.stopGraceful
            ctxState := ContextState.stopping })) ∧
    (target ≠ ActorState.stop →
      chanLoop reenter (Envelope.state target nt :: rest) st =
        prepRes [Event.mailboxPolled, Event.stateReceived nt]
          (chanLoop reenter rest { st with
            mailbox := rest
            dropNotify := some nt
            rxClosed := true
            actState := ActorState.stopGraceful })) := by
  constructor
  · intro h
    subst h
    rfl
  · intro h
    simp only [chanLoop]
    rw [if_neg h]

/-- C5 witness: a forced-stop envelope received by the idle driver. -/
theorem c5_witness :
    chanLoop rePend [Envelope.state ActorState.stop 4] baseSt =
      prepRes [Event.mailboxPolled, Event.stateReceived 4]
        (pollClose { baseSt with
          mailbox := []
          dropNotify := some 4
          rxClosed := true
          actState := ActorState.stopGraceful
          ctxState := ContextState.stopping }) :=
  (c5_state_change rePend ActorState.stop 4 [] baseSt).1 rfl

theorem stateNotifies_append (a b : List Event) :
    stateNotifies (a ++ b) = stateNotifies a ++ stateNotifies b :=
  List.filterMap_append a b _

theorem notifyAfter_append (a b : List Event) (init : Option Nat) :
    notifyAfter (a ++ b) init = notifyAfter b (notifyAfter a init) := by
  simp [notifyAfter, stateNotifies_append, List.foldl_append]

theorem notifyAfter_of_none (t : List Event) (init : Option Nat)
    (h : stateNotifies t = []) : notifyAfter t init = init := by
  simp [notifyAfter, h]

theorem stateNotifies_benign (t : List Event)
    (h : ∀ e ∈ t, benignEv e = true) : stateNotifies t = [] := by
  induction t with
  | nil => rfl
  | cons e t ih =>
    have he := h e (List.mem_cons_self e t)
    have ht := fun x hx => h x (List.mem_cons_of_mem e hx)
    cases e <;> simp [benignEv] at he ⊢ <;> exact ih ht

theorem benign_no_onStop (t : List Event)
    (h : ∀ e ∈ t, benignEv e = true) : Event.onStopBuilt ∉ t := by
  intro hmem
  have := h _ hmem
  simp [benignEv] at this

theorem stopLast_append (a b : List Event) (h : Event.onStopBuilt ∉ a) :
    stopLast (a ++ b) = stopLast b := by
  induction a with
  | nil => rfl
  | cons e t ih =>
    have he : e ≠ Event.onStopBuilt := fun hx => h (hx ▸ List.mem_cons_self e t)
    have ht : Event.onStopBuilt ∉ t := fun hx => h (List.mem_cons_of_mem e hx)
    cases e <;> first
      | exact absurd rfl he
      | exact ih ht

theorem dispatchedIds_append (a b : List Event) :
    dispatchedIds (a ++ b) = dispatchedIds a ++ dispatchedIds b :=
  List.filterMap_append a b _

theorem mailIds_append (a b : List Envelope) :
    mailIds (a ++ b) = mailIds a ++ mailIds b := by
  induction a with
  | nil => rfl
  | cons e t ih =>
    cases e <;> simp [mailIds, ih]

theorem prepRes_prepRes (a b : List Event) (r : Res) :
    prepRes a (prepRes b r) = prepRes (a ++ b) r := by
  simp [prepRes, List.append_assoc]

theorem prepRes_trace (a : List Event) (r : Res) :
    (prepRes a r).trace = a ++ r.trace := rfl

theorem prepRes_st (a : List Event) (r : Res) : (prepRes a r).st = r.st := rfl

theorem prepSumF_inl (tr : List Event) (x : (Driver × List Event) ⊕ Res)
    (out : Driver × List Event) (h : prepSumF tr x = Sum.inl out) :
    ∃ o, x = Sum.inl o ∧ out = (o.1, tr ++ o.2) := by
  rcases x with o | r
  · refine ⟨o, rfl, ?_⟩
    simp only [prepSumF, Sum.inl.injEq] at h
    rw [← h]
  · simp [prepSumF] at h

theorem prepSumF_inr (tr : List Event) (x : (Driver × List Event) ⊕ Res)
    (r : Res) (h : prepSumF tr x = Sum.inr r) :
    ∃ r0, x = Sum.inr r0 ∧ r = prepRes tr r0 := by
  rcases x with o | r0
  · simp [prepSumF] at h
  · refine ⟨r0, rfl, ?_⟩
    simp only [prepSumF, Sum.inr.injEq] at h
    rw [← h]

theorem prepSumS_inr (tr : List Event)
    (x : (Driver × Bool × List Event) ⊕ Res) (r : Res)
    (h : prepSumS tr x = Sum.inr r) :
    ∃ r0, x = Sum.inr r0 ∧ r = prepRes tr r0 := by
  rcases x with o | r0
  · simp [prepSumS] at h
  · refine ⟨r0, rfl, ?_⟩
    simp only [prepSumS, Sum.inr.injEq] at h
    rw [← h]

theorem pollCloseStep_facts (st : Driver) (t : Task) :
    (pollCloseStep st t).st.dropNotify = st.dropNotify ∧
    (pollCloseStep st t).trace = [] := by
  rcases ht : pollTask t with _ | f <;>
    simp [pollCloseStep, ht]

theorem pollClose_facts (st : Driver) :
    (pollClose st).st.dropNotify = st.dropNotify ∧
    stateNotifies (pollClose st).trace = [] ∧
    stopLast (pollClose st).trace = true ∧
    dispatchedIds (pollClose st).trace = [] := by
  rcases hm : st.cacheMut with _ | t
  · rcases ht : pollTask st.onStopTask with _ | f <;>
      simp [pollClose, hm, pollCloseStep, ht, prepRes, stateNotifies,
        stopLast, dispatchedIds]
  · rcases ht : pollTask t with _ | f <;>
      simp [pollClose, hm, pollCloseStep, ht, stateNotifies, stopLast,
        dispatchedIds]

theorem streamInner_facts (beh : StreamBeh) :
    ∀ (polled : Nat) (st : Driver),
      (streamInner polled beh st).st.mailbox = st.mailbox ∧
      (streamInner polled beh st).st.dropNotify = st.dropNotify ∧
      stateNotifies (streamInner polled beh st).trace = [] ∧
      Event.onStopBuilt ∉ (streamInner polled beh st).trace := by
  induction beh with
  | nil =>
    intro polled st
    refine ⟨rfl, rfl, rfl, ?_⟩
    simp [streamInner]
  | cons hd rest ih =>
    intro polled st
    rcases hd with _ | m
    · refine ⟨rfl, rfl, rfl, ?_⟩
      simp [streamInner]
    · rcases m with ⟨id, t⟩ | ⟨id, t⟩
      · by_cases hc : polled + 1 = 16
        · simp only [streamInner, if_pos hc]
          refine ⟨rfl, rfl, rfl, ?_⟩
          simp
        · simp only [streamInner, if_neg hc]
          obtain ⟨h1, h2, h3, h4⟩ := ih (polled + 1) (addConcurrent st t)
          refine ⟨h1, h2, ?_, ?_⟩
          · dsimp only
            show stateNotifies (Event.streamPolled :: Event.dispatched id ::
              (streamInner (polled + 1) rest (addConcurrent st t)).trace) = []
            simpa [stateNotifies] using h3
          · dsimp only
            intro hmem
            rcases List.mem_cons.mp hmem with h | h
            · cases h
            · rcases List.mem_cons.mp h with h | h
              · cases h
              · exact h4 h
      · refine ⟨rfl, rfl, rfl, ?_⟩
        simp [streamInner]

theorem compose_inl_facts (st : Driver) {stA : Driver} (o : Driver × List Event)
    (evs : List Event)
    (hfacts : o.1.mailbox = stA.mailbox ∧ o.1.dropNotify = stA.dropNotify ∧
      stateNotifies o.2 = [] ∧ Event.onStopBuilt ∉ o.2)
    (hmb : stA.mailbox = st.mailbox) (hdn : stA.dropNotify = st.dropNotify)
    (hsn : stateNotifies evs = []) (hns : Event.onStopBuilt ∉ evs) :
    o.1.mailbox = st.mailbox ∧ o.1.dropNotify = st.dropNotify ∧
    stateNotifies (evs ++ o.2) = [] ∧ Event.onStopBuilt ∉ evs ++ o.2 := by
  obtain ⟨h1, h2, h3, h4⟩ := hfacts
  refine ⟨h1.trans hmb, h2.trans hdn, ?_, ?_⟩
  · rw [stateNotifies_append, h3, hsn]
    rfl
  · intro hm
    rcases List.mem_append.mp hm with hm | hm
    · exact hns hm
    · exact h4 hm

theorem ResShape_prep (reenter : Driver → Res) (st : Driver) {stA : Driver}
    (r0 : Res) (evs : List Event)
    (h : ResShape reenter stA r0)
    (hmb : stA.mailbox = st.mailbox) (hdn : stA.dropNotify = st.dropNotify)
    (hsn : stateNotifies evs = []) (hns : Event.onStopBuilt ∉ evs) :
    ResShape reenter st (prepRes evs r0) := by
  rcases h with ⟨h1, h2, h3, h4⟩ | ⟨st2, evs0, h1, h2, h3, h4, h5⟩
  · refine Or.inl ⟨?_, h2.trans hdn, ?_, h4⟩
    · rw [prepRes_trace]
      intro hm
      rcases List.mem_append.mp hm with hm | hm
      · exact hns hm
      · exact h1 hm
    · rw [prepRes_trace, stateNotifies_append, h3, hsn]
      rfl
  · subst h5
    rw [prepRes_prepRes]
    refine Or.inr ⟨st2, evs ++ evs0, h1.trans hmb, h2.trans hdn, ?_, ?_, rfl⟩
    · rw [stateNotifies_append, h3, hsn]
      rfl
    · intro hm
      rcases List.mem_append.mp hm with hm | hm
      · exact hns hm
      · exact h4 hm

theorem ResShape_reenter (reenter : Driver → Res) (st st2 : Driver)
    (evs : List Event)
    (hmb : st2.mailbox = st.mailbox) (hdn : st2.dropNotify = st.dropNotify)
    (hsn : stateNotifies evs = []) (hns : Event.onStopBuilt ∉ evs) :
    ResShape reenter st (prepRes evs (reenter st2)) :=
  Or.inr ⟨st2, evs, hmb, hdn, hsn, hns, rfl⟩

theorem futLoop_inl_facts (reenter : Driver → Res) (g : Nat) :
    ∀ (i : Nat) (st : Driver) (o : Driver × List Event),
      futLoop reenter g i st = Sum.inl o →
      o.1.mailbox = st.mailbox ∧ o.1.dropNotify = st.dropNotify ∧
      stateNotifies o.2 = [] ∧ Event.onStopBuilt ∉ o.2 := by
  induction g with
  | zero => intro i st o h; simp [futLoop] at h
  | succ g ih =>
    intro i st o h
    simp only [futLoop] at h
    by_cases hi : i < st.futureCache.length
    · rw [if_pos hi] at h
      rcases hp : pollFut (st.futureCache.getD i ⟨0, true, CMsg.ref 0 0⟩) with fm | m
      all_goals rw [hp] at h
      all_goals try dsimp only at h
      · obtain ⟨o2, hx, hout⟩ := prepSumF_inl _ _ _ h
        subst hout
        exact compose_inl_facts st o2 _ (ih _ _ _ hx) rfl rfl rfl (by simp)
      · rcases m with _ | cm
        · obtain ⟨o2, hx, hout⟩ := prepSumF_inl _ _ _ h
          subst hout
          exact compose_inl_facts st o2 _ (ih _ _ _ hx) rfl rfl rfl (by simp)
        · rcases cm with ⟨id, t⟩ | ⟨id, t⟩
          · obtain ⟨o2, hx, hout⟩ := prepSumF_inl _ _ _ h
            subst hout
            exact compose_inl_facts st o2 _ (ih _ _ _ hx) rfl rfl rfl (by simp)
          · cases h
    · rw [if_neg hi] at h
      simp only [Sum.inl.injEq] at h
      subst h
      exact ⟨rfl, rfl, rfl, by simp⟩

theorem futLoop_inr_facts (reenter : Driver → Res) (g : Nat) :
    ∀ (i : Nat) (st : Driver) (r : Res),
      futLoop reenter g i st = Sum.inr r → ResShape reenter st r := by
  induction g with
  | zero =>
    intro i st r h
    simp only [futLoop, Sum.inr.injEq] at h
    subst h
    exact Or.inl ⟨by simp, rfl, rfl, rfl⟩
  | succ g ih =>
    intro i st r h
    simp only [futLoop] at h
    by_cases hi : i < st.futureCache.length
    · rw [if_pos hi] at h
      rcases hp : pollFut (st.futureCache.getD i ⟨0, true, CMsg.ref 0 0⟩) with fm | m
      all_goals rw [hp] at h
      all_goals try dsimp only at h
      · obtain ⟨r0, hx, hout⟩ := prepSumF_inr _ _ _ h
        subst hout
        exact ResShape_prep reenter st r0 _ (ih _ _ _ hx) rfl rfl rfl (by simp)
      · rcases m with _ | cm
        · obtain ⟨r0, hx, hout⟩ := prepSumF_inr _ _ _ h
          subst hout
          exact ResShape_prep reenter st r0 _ (ih _ _ _ hx) rfl rfl rfl (by simp)
        · rcases cm with ⟨id, t⟩ | ⟨id, t⟩
          · obtain ⟨r0, hx, hout⟩ := prepSumF_inr _ _ _ h
            subst hout
            exact ResShape_prep reenter st r0 _ (ih _ _ _ hx) rfl rfl rfl (by simp)
          · simp only [Sum.inr.injEq] at h
            subst h
            exact ResShape_reenter reenter st _ _ rfl rfl rfl (by simp)
    · rw [if_neg hi] at h
      cases h

theorem streamOuter_inl_facts (reenter : Driver → Res) (g : Nat) :
    ∀ (i : Nat) (ew : Bool) (st : Driver) (o : Driver × Bool × List Event),
      streamOuter reenter g i ew st = Sum.inl o →
      o.1.mailbox = st.mailbox ∧ o.1.dropNotify = st.dropNotify ∧
      stateNotifies o.2.2 = [] ∧ Event.onStopBuilt ∉ o.2.2 := by
  induction g with
  | zero => intro i ew st o h; simp [streamOuter] at h
  | succ g ih =>
    intro i ew st o h
    simp only [streamOuter] at h
    by_cases hi : i < st.streamCache.length
    · rw [if_pos hi] at h
      obtain ⟨hm, hd, hs, hb⟩ := streamInner_facts (st.streamCache.getD i []) 0 st
      rcases hex : (streamInner 0 (st.streamCache.getD i []) st).exit with _ | _ | _ | _
      all_goals rw [hex] at h
      all_goals try dsimp only at h
      · obtain ⟨o2, hx, hout⟩ := prepSumS_inl _ _ _ h
        subst hout
        have hf := ih _ _ _ o2 hx
        exact ⟨hf.1.trans hm, hf.2.1.trans hd, by
            rw [stateNotifies_append, hf.2.2.1, hs]
            rfl
          , by
            intro hmem
            rcases List.mem_append.mp hmem with hmem | hmem
            · exact hb hmem
            · exact hf.2.2.2 hmem⟩
      · obtain ⟨o2, hx, hout⟩ := prepSumS_inl _ _ _ h
        subst hout
        have hf := ih _ _ _ o2 hx
        exact ⟨hf.1.trans hm, hf.2.1.trans hd, by
            rw [stateNotifies_append, hf.2.2.1, hs]
            rfl
          , by
            intro hmem
            rcases List.mem_append.mp hmem with hmem | hmem
            · exact hb hmem
            · exact hf.2.2.2 hmem⟩
      · obtain ⟨o2, hx, hout⟩ := prepSumS_inl _ _ _ h
        subst hout
        have hf := ih _ _ _ o2 hx
        exact ⟨hf.1.trans hm, hf.2.1.trans hd, by
            rw [stateNotifies_append, hf.2.2.1, hs]
            rfl
          , by
            intro hmem
            rcases List.mem_append.mp hmem with hmem | hmem
            · exact hb hmem
            · exact hf.2.2.2 hmem⟩
      · cases h
    · rw [if_neg hi] at h
      simp only [Sum.inl.injEq] at h
      subst h
      exact ⟨rfl, rfl, rfl, by simp⟩

theorem streamOuter_inr_facts (reenter : Driver → Res) (g : Nat) :
    ∀ (i : Nat) (ew : Bool) (st : Driver) (r : Res),
      streamOuter reenter g i ew st = Sum.inr r → ResShape reenter st r := by
  induction g with
  | zero =>
    intro i ew st r h
    simp only [streamOuter, Sum.inr.injEq] at h
    subst h
    exact Or.inl ⟨by simp, rfl, rfl, rfl⟩
  | succ g ih =>
    intro i ew st r h
    simp only [streamOuter] at h
    by_cases hi : i < st.streamCache.length
    · rw [if_pos hi] at h
      obtain ⟨hm, hd, hs, hb⟩ := streamInner_facts (st.streamCache.getD i []) 0 st
      rcases hex : (streamInner 0 (st.streamCache.getD i []) st).exit with _ | _ | _ | _
      all_goals rw [hex] at h
      all_goals try dsimp only at h
      · obtain ⟨r0, hx, hout⟩ := prepSumS_inr _ _ _ h
        subst hout
        exact ResShape_prep reenter st r0 _ (ih _ _ _ _ hx) hm hd hs hb
      · obtain ⟨r0, hx, hout⟩ := prepSumS_inr _ _ _ h
        subst hout
        exact ResShape_prep reenter st r0 _ (ih _ _ _ _ hx) hm hd hs hb
      · obtain ⟨r0, hx, hout⟩ := prepSumS_inr _ _ _ h
        subst hout
        exact ResShape_prep reenter st r0 _ (ih _ _ _ _ hx) hm hd hs hb
      · simp only [Sum.inr.injEq] at h
        subst h
        exact ResShape_reenter reenter st _ _ hm hd hs hb
    · rw [if_neg hi] at h
      cases h

theorem chanLoop_notify (reenter : Driver → Res)
    (hre : ∀ st, (reenter st).st.dropNotify =
      notifyAfter (reenter st).trace st.dropNotify) :
    ∀ (mb : List Envelope) (st : Driver),
      (chanLoop reenter mb st).st.dropNotify =
        notifyAfter (chanLoop reenter mb st).trace st.dropNotify := by
  intro mb
  induction mb with
  | nil =>
    intro st
    simp only [chanLoop]
    by_cases hc : st.rxClosed
    · rw [if_pos hc]
      by_cases he : ({st with actState := ActorState.stopGraceful} : Driver).extraPoll
      · rw [if_pos he, prepRes_st, prepRes_trace, notifyAfter_append]
        exact hre _
      · rw [if_neg he]
        by_cases hh : haveCache {st with actState := ActorState.stopGraceful}
        · rw [if_pos hh]
          rfl
        · rw [if_neg hh, prepRes_st, prepRes_trace, notifyAfter_append]
          have hp := pollClose_facts { st with
            actState := ActorState.stopGraceful
            ctxState := ContextState.stopping }
          rw [hp.1, notifyAfter_of_none _ _ hp.2.1]
          rfl
    · rw [if_neg hc]
      by_cases he : st.extraPoll
      · rw [if_pos he, prepRes_st, prepRes_trace, notifyAfter_append]
        exact hre _
      · rw [if_neg he]
        rfl
  | cons e rest ih =>
    intro st
    rcases e with ⟨id, t⟩ | ⟨id, t⟩ | ⟨target, nt⟩
    · simp only [chanLoop]
      rw [prepRes_st, prepRes_trace, notifyAfter_append]
      exact ih _
    · simp only [chanLoop]
      rw [prepRes_st, prepRes_trace, notifyAfter_append]
      exact hre _
    · simp only [chanLoop]
      by_cases ht : target = ActorState.stop
      · rw [if_pos ht, prepRes_st, prepRes_trace, notifyAfter_append]
        have hp := pollClose_facts { st with
          mailbox := rest
          dropNotify := some nt
          rxClosed := true
          actState := ActorState.stopGraceful
          ctxState := ContextState.stopping }
        rw [hp.1, notifyAfter_of_none _ _ hp.2.1]
        rfl
      · rw [if_neg ht, prepRes_st, prepRes_trace, notifyAfter_append]
        exact ih _

theorem noForcedStop_cons (e : Envelope) (rest : List Envelope)
    (h : noForcedStop (e :: rest) = true) : noForcedStop rest = true := by
  simp only [noForcedStop, List.all_cons, Bool.and_eq_true] at h ⊢
  exact h.2

theorem noForcedStop_no_stop (nt : Nat) (rest : List Envelope) :
    noForcedStop (Envelope.state ActorState.stop nt :: rest) = false := by
  simp [noForcedStop, List.all_cons]

theorem chanLoop_stopLast (reenter : Driver → Res)
    (hre : ∀ st, stopLast (reenter st).trace = true) :
    ∀ (mb : List Envelope) (st : Driver),
      stopLast (chanLoop reenter mb st).trace = true := by
  intro mb
  induction mb with
  | nil =>
    intro st
    simp only [chanLoop]
    by_cases hc : st.rxClosed
    · rw [if_pos hc]
      by_cases he : ({st with actState := ActorState.stopGraceful} : Driver).extraPoll
      · rw [if_pos he, prepRes_trace, stopLast_append _ _ (by simp)]
        exact hre _
      · rw [if_neg he]
        by_cases hh : haveCache {st with actState := ActorState.stopGraceful}
        · rw [if_pos hh]
          rfl
        · rw [if_neg hh, prepRes_trace, stopLast_append _ _ (by simp)]
          exact (pollClose_facts _).2.2.1
    · rw [if_neg hc]
      by_cases he : st.extraPoll
      · rw [if_pos he, prepRes_trace, stopLast_append _ _ (by simp)]
        exact hre _
      · rw [if_neg he]
        rfl
  | cons e rest ih =>
    intro st
    rcases e with ⟨id, t⟩ | ⟨id, t⟩ | ⟨target, nt⟩
    · simp only [chanLoop]
      rw [prepRes_trace, stopLast_append _ _ (by simp)]
      exact ih _
    · simp only [chanLoop]
      rw [prepRes_trace, stopLast_append _ _ (by simp)]
      exact hre _
    · simp only [chanLoop]
      by_cases ht : target = ActorState.stop
      · rw [if_pos ht, prepRes_trace, stopLast_append _ _ (by simp)]
        exact (pollClose_facts _).2.2.1
      · rw [if_neg ht, prepRes_trace, stopLast_append _ _ (by simp)]
        exact ih _

theorem chanLoop_drain (reenter : Driver → Res)
    (hre : ∀ st, noForcedStop st.mailbox = true →
      Event.onStopBuilt ∈ (reenter st).trace →
      ∀ id ∈ mailIds st.mailbox, id ∈ dispatchedIds (reenter st).trace) :
    ∀ (mb : List Envelope) (st : Driver), noForcedStop mb = true →
      Event.onStopBuilt ∈ (chanLoop reenter mb st).trace →
      ∀ id ∈ mailIds mb, id ∈ dispatchedIds (chanLoop reenter mb st).trace := by
  intro mb
  induction mb with
  | nil =>
    intro st _ _ id hid
    exact absurd hid (List.not_mem_nil id)
  | cons e rest ih =>
    intro st hnf hstop id hid
    rcases e with ⟨id0, t⟩ | ⟨id0, t⟩ | ⟨target, nt⟩
    · simp only [chanLoop, prepRes_trace] at hstop ⊢
      rw [dispatchedIds_append]
      rcases List.mem_cons.mp hid with rfl | hid
      · apply List.mem_append_left
        simp [dispatchedIds]
      · apply List.mem_append_right
        have hstop2 : Event.onStopBuilt ∈ (chanLoop reenter rest
            (addConcurrent {st with mailbox := rest} t)).trace := by
          rcases List.mem_append.mp hstop with h | h
          · simp at h
          · exact h
        exact ih _ (noForcedStop_cons _ _ hnf) hstop2 id hid
    · simp only [chanLoop, prepRes_trace] at hstop ⊢
      rw [dispatchedIds_append]
      rcases List.mem_cons.mp hid with rfl | hid
      · apply List.mem_append_left
        simp [dispatchedIds]
      · apply List.mem_append_right
        have hstop2 : Event.onStopBuilt ∈
            (reenter (addExclusive {st with mailbox := rest} t)).trace := by
          rcases List.mem_append.mp hstop with h | h
          · simp at h
          · exact h
        exact hre _ (noForcedStop_cons _ _ hnf) hstop2 id hid
    · by_cases ht : target = ActorState.stop
      · subst ht
        rw [noForcedStop_no_stop] at hnf
        cases hnf
      · simp only [chanLoop] at hstop ⊢
        rw [if_neg ht] at hstop ⊢
        simp only [prepRes_trace] at hstop ⊢
        rw [dispatchedIds_append]
        apply List.mem_append_right
        have hstop2 : Event.onStopBuilt ∈ (chanLoop reenter rest { st with
            mailbox := rest
            dropNotify := some nt
            rxClosed := true
            actState := ActorState.stopGraceful }).trace := by
          rcases List.mem_append.mp hstop with h | h
          · simp at h
          · exact h
        exact ih _ (noForcedStop_cons _ _ hnf) hstop2 id hid

theorem stopLast_of_not_mem (t : List Event) (h : Event.onStopBuilt ∉ t) :
    stopLast t = true := by
  have := stopLast_append t [] h
  rw [List.append_nil] at this
  rw [this]
  rfl

theorem prep_invs (st : Driver) (r : Res) (evs : List Event)
    (hsn : stateNotifies evs = []) (hns : Event.onStopBuilt ∉ evs)
    (hr : ResInv st r) : ResInv st (prepRes evs r) := by
  obtain ⟨h1, h2, h3⟩ := hr
  refine ⟨?_, ?_, ?_⟩
  · rw [prepRes_st, prepRes_trace, notifyAfter_append,
      notifyAfter_of_none _ _ hsn]
    exact h1
  · rw [prepRes_trace, stopLast_append _ _ hns]
    exact h2
  · intro hnf hstop id hid
    rw [prepRes_trace] at hstop ⊢
    rw [dispatchedIds_append]
    apply List.mem_append_right
    apply h3 hnf ?_ id hid
    rcases List.mem_append.mp hstop with h | h
    · exact absurd h hns
    · exact h

theorem transfer_invs (st stA : Driver) (r : Res)
    (hmb : stA.mailbox = st.mailbox) (hdn : stA.dropNotify = st.dropNotify)
    (hr : ResInv stA r) : ResInv st r := by
  obtain ⟨h1, h2, h3⟩ := hr
  refine ⟨?_, h2, ?_⟩
  · rw [h1, hdn]
  · intro hnf hstop id hid
    rw [← hmb] at hnf hid
    exact h3 hnf hstop id hid

theorem resShape_invs (reenter : Driver → Res) (st : Driver) (r : Res)
    (hre : ReInv reenter) (hshape : ResShape reenter st r) : ResInv st r := by
  rcases hshape with ⟨h1, h2, h3, _⟩ | ⟨st2, evs, h1, h2, h3, h4, h5⟩
  · refine ⟨?_, stopLast_of_not_mem _ h1, ?_⟩
    · rw [h2, notifyAfter_of_none _ _ h3]
    · intro _ hstop
      exact absurd hstop h1
  · subst h5
    exact prep_invs st _ evs h3 h4
      (transfer_invs st st2 _ h1 h2 ⟨hre.1 st2, hre.2.1 st2, hre.2.2 st2⟩)

theorem chanLoop_resInv (reenter : Driver → Res) (hre : ReInv reenter)
    (st : Driver) : ResInv st (chanLoop reenter st.mailbox st) :=
  ⟨chanLoop_notify reenter hre.1 st.mailbox st,
    chanLoop_stopLast reenter hre.2.1 st.mailbox st,
    chanLoop_drain reenter hre.2.2 st.mailbox st⟩

theorem runRest_invs (reenter : Driver → Res) (g : Nat) (hre : ReInv reenter) :
    ∀ st, ResInv st (runRest reenter g st) := by
  intro st
  unfold runRest
  dsimp only
  by_cases hact :
      ({st with extraPoll := false} : Driver).actState = ActorState.running
  · rw [if_pos hact]
    rcases hf : futLoop reenter g 0 {st with extraPoll := false} with ⟨st2, tr1⟩ | r
    · obtain ⟨hm2, hd2, hs1, hb1⟩ := futLoop_inl_facts reenter g 0 _ (st2, tr1) hf
      replace hm2 : st2.mailbox = st.mailbox := hm2
      replace hd2 : st2.dropNotify = st.dropNotify := hd2
      replace hs1 : stateNotifies tr1 = [] := hs1
      replace hb1 : Event.onStopBuilt ∉ tr1 := hb1
      dsimp only
      rcases hs : streamOuter reenter g 0 false st2 with ⟨st3, ew, tr2⟩ | r2
      · obtain ⟨hm3, hd3, hs2, hb2⟩ :=
          streamOuter_inl_facts reenter g 0 false st2 (st3, ew, tr2) hs
        replace hm3 : st3.mailbox = st2.mailbox := hm3
        replace hd3 : st3.dropNotify = st2.dropNotify := hd3
        replace hs2 : stateNotifies tr2 = [] := hs2
        replace hb2 : Event.onStopBuilt ∉ tr2 := hb2
        dsimp only
        have hsn : stateNotifies
            (tr1 ++ tr2 ++ if ew = true then [Event.selfWake] else []) = [] := by
          rw [stateNotifies_append, stateNotifies_append, hs1, hs2]
          cases ew <;> rfl
        have hns : Event.onStopBuilt ∉
            tr1 ++ tr2 ++ if ew = true then [Event.selfWake] else [] := by
          intro hmem
          rcases List.mem_append.mp hmem with hmem | hmem
          · rcases List.mem_append.mp hmem with hmem | hmem
            · exact hb1 hmem
            · exact hb2 hmem
          · cases ew <;> simp at hmem
        exact prep_invs st _ _ hsn hns
          (transfer_invs st st3 _ (hm3.trans hm2) (hd3.trans hd2)
            (chanLoop_resInv reenter hre st3))
      · have hshape := streamOuter_inr_facts reenter g 0 false st2 r2 hs
        dsimp only
        exact prep_invs st _ tr1 hs1 hb1
          (transfer_invs st st2 _ hm2 hd2
            (resShape_invs reenter st2 r2 hre hshape))
    · have hshape := futLoop_inr_facts reenter g 0 _ r hf
      dsimp only
      exact transfer_invs st _ _ rfl rfl
        (resShape_invs reenter _ r hre hshape)
  · rw [if_neg hact]
    exact transfer_invs st _ _ rfl rfl
      (chanLoop_resInv reenter hre {st with extraPoll := false})

theorem pollRunningF_invs : ∀ fuel : Nat, ReInv (pollRunningF fuel) := by
  intro fuel
  induction fuel with
  | zero =>
    exact ⟨fun st => rfl, fun st => rfl,
      fun st _ h => absurd h (List.not_mem_nil _)⟩
  | succ n ih =>
    have hstep : ∀ st, ResInv st (pollRunningF (n + 1) st) := by
      intro st
      have hben : ∀ e ∈ (drainRun st.queue st.cacheRef).trace, benignEv e = true :=
        fun e he =>
          drainLoop_trace_benign st.cacheRef.length st.queue 0 st.cacheRef e he
      have hsn : stateNotifies (drainRun st.queue st.cacheRef).trace = [] :=
        stateNotifies_benign _ hben
      have hns : Event.onStopBuilt ∉ (drainRun st.queue st.cacheRef).trace :=
        benign_no_onStop _ hben
      unfold pollRunningF
      dsimp only
      rcases hm : st.cacheMut with _ | t
      · dsimp only
        exact prep_invs st _ _ hsn hns
          (transfer_invs st _ _ rfl rfl (runRest_invs (pollRunningF n) n ih _))
      · dsimp only
        by_cases hlen : (drainRun st.queue st.cacheRef).slab.length ≠ 0
        · rw [if_pos hlen]
          refine ⟨?_, stopLast_of_not_mem _ hns, fun _ hstop => absurd hstop hns⟩
          rw [notifyAfter_of_none _ _ hsn]
        · rw [if_neg hlen]
          rcases ht : pollTask t with _ | f
          · dsimp only
            have hsn2 : stateNotifies ((drainRun st.queue st.cacheRef).trace ++
                [Event.exclusiveDone]) = [] := by
              rw [stateNotifies_append, hsn]
              rfl
            have hns2 : Event.onStopBuilt ∉
                (drainRun st.queue st.cacheRef).trace ++ [Event.exclusiveDone] := by
              intro hmem
              rcases List.mem_append.mp hmem with hmem | hmem
              · exact hns hmem
              · simp at hmem
            exact prep_invs st _ _ hsn2 hns2
              (transfer_invs st _ _ rfl rfl
                (runRest_invs (pollRunningF n) n ih _))
          · dsimp only
            refine ⟨?_, stopLast_of_not_mem _ hns, fun _ hstop => absurd hstop hns⟩
            rw [notifyAfter_of_none _ _ hsn]
    exact ⟨fun st => (hstep st).1, fun st => (hstep st).2.1,
      fun st => (hstep st).2.2⟩

/-- C6: exactly one confirm sender is notified per driver drop, and it is the
last one received via a `StateChange` envelope: the driver's drop handler
signals the stored `drop_notify` sender exactly once, and after any poll that
sender is the last `stateReceived` confirm id of the poll's trace (each
received `StateChange` overwrites the stored sender), falling back to the
previously stored one — or none — when the poll received no state change. -/
theorem c6_drop_notify (fuel : Nat) (st : Driver) :
    dropDriver (pollRunningF fuel st).st =
      match notifyAfter (pollRunningF fuel st).trace st.dropNotify with
      | some n => [n]
      | none => [] := by
  have h := (pollRunningF_invs fuel).1 st
  unfold dropDriver
  rw [h]

/-- C9: graceful drain — when the mailbox holds a graceful `StateChange`
after some earlier envelopes and no forced stop is requested, then in any
poll in which the driver builds `on_stop`, every message envelope enqueued
before the stop request has been dispatched to its handler, and the
`on_stop` construction is the final event of the poll (so every dispatch
precedes it). -/
theorem c9_graceful_drain (fuel : Nat) (st : Driver) (pre post : List Envelope)
    (n : Nat)
    (hmb : st.mailbox = pre ++ Envelope.state ActorState.stopGraceful n :: post)
    (hnf : noForcedStop st.mailbox = true)
    (hstop : Event.onStopBuilt ∈ (pollRunningF fuel st).trace) :
    (∀ id ∈ mailIds pre, id ∈ dispatchedIds (pollRunningF fuel st).trace) ∧
    stopLast (pollRunningF fuel st).trace = true := by
  constructor
  · intro id hid
    apply (pollRunningF_invs fuel).2.2 st hnf hstop id
    rw [hmb, mailIds_append]
    exact List.mem_append_left _ hid
  · exact (pollRunningF_invs fuel).2.1 st

/-- C9 witness: the concrete graceful shutdown dispatches message 1 before
`on_stop`. -/
theorem c9_witness : 1 ∈ dispatchedIds (pollRunningF 5 stG2).trace :=
  (c9_graceful_drain 5 stG2 [Envelope.ref 1 0] [] 9 rfl (by decide)
    (by decide)).1 1 (by decide)

/-- C8 witness: a poll whose enqueue future completes moves the request to
the awaiting state, where configuration is rejected. -/
theorem c8_witness :
    isResponse (pollReq (MReq.request 0 none (⟨2, some 3⟩ : ReplyRx Nat)
      5 none)).2 = true :=
  ((c8_timeout_guard Nat).2 0 none ⟨2, some 3⟩ 5 none).mpr ⟨rfl, rfl⟩

end ActixAsync
